import Mathlib

/-!
Verification of the scene-graph reconciliation core of the Godot-MCP
repository: the tree differ (`src/server/src/utils/scene_patch.ts`), the
identity resolver and property filter (`src/server/src/tools/scene_tools.ts`),
and the patch applicator
(`src/addons/godot_mcp/commands/scene_commands.gd`).

The TypeScript and GDScript sources are embedded shallowly: JavaScript
objects and `Map`s become association lists (first binding wins on lookup,
`mapSet` keeps insertion order like `Map.set`), mutable accumulator arrays
become explicitly threaded state, and JavaScript `undefined` is an explicit
`Value` constructor.
-/

namespace GodotMCP

/-- A JSON-like property value as handled by the server (JavaScript values
coming from JSON payloads). `vundef` models the JavaScript `undefined`
value, which `stableStringify` treats specially. Numbers are modelled as
integers. -/
inductive Value : Type where
  | vundef : Value
  | vnull : Value
  | vbool : Bool → Value
  | vnum : Int → Value
  | vstr : String → Value
  | varr : List Value → Value
  | vobj : List (String × Value) → Value

/-- Lookup in an association list; the first binding wins. Models JavaScript
`Map.get` and record field access (keys are unique in records built by the
embedded code). -/
def mapGet {α : Type} (k : String) : List (String × α) → Option α
  | [] => none
  | (k2, v) :: rest => if k2 = k then some v else mapGet k rest

/-- Update an association list: replace the first binding of the key in
place, otherwise append. Models JavaScript `Map.set` (and object property
assignment), which keeps insertion order. -/
def mapSet {α : Type} (k : String) (v : α) : List (String × α) → List (String × α)
  | [] => [(k, v)]
  | (k2, v2) :: rest => if k2 = k then (k, v) :: rest else (k2, v2) :: mapSet k v rest

/-- Remove a binding from an association list. Models JavaScript
`Map.delete`. -/
def mapDelete {α : Type} (k : String) : List (String × α) → List (String × α)
  | [] => []
  | (k2, v2) :: rest => if k2 = k then rest else (k2, v2) :: mapDelete k rest

/-- A node of the live-scene snapshot (`SceneTreeNode` in
`src/server/src/utils/scene_patch.ts`). The snapshots produced by
`_get_edited_scene_structure` always populate `children`, so it is a plain
list here; the first component is the optional stable id attached when
`ensure_ids` is set (read by the identity resolver, ignored by the differ). -/
inductive SceneTreeNode : Type where
  | mk : Option String → String → String → String → List SceneTreeNode → SceneTreeNode

/-- The stable id of a snapshot node, when present. -/
def SceneTreeNode.nodeId : SceneTreeNode → Option String
  | .mk i _ _ _ _ => i

/-- The `name` field of a snapshot node. -/
def SceneTreeNode.name : SceneTreeNode → String
  | .mk _ n _ _ _ => n

/-- The `type` field of a snapshot node. -/
def SceneTreeNode.type : SceneTreeNode → String
  | .mk _ _ t _ _ => t

/-- The `path` field of a snapshot node. -/
def SceneTreeNode.path : SceneTreeNode → String
  | .mk _ _ _ p _ => p

/-- The `children` field of a snapshot node. -/
def SceneTreeNode.children : SceneTreeNode → List SceneTreeNode
  | .mk _ _ _ _ cs => cs

/-- A desired node (`DesiredSceneNode` in `scene_patch.ts`): required name,
optional type, optional properties (absent ≡ empty, as the differ always
reads it through a default), and an optional children list whose
presence/absence is observable in rename detection. -/
inductive DesiredSceneNode : Type where
  | mk : String → Option String → List (String × Value) → Option (List DesiredSceneNode) →
      DesiredSceneNode

/-- The `name` field of a desired node. -/
def DesiredSceneNode.name : DesiredSceneNode → String
  | .mk n _ _ _ => n

/-- The optional `type` field of a desired node. -/
def DesiredSceneNode.type? : DesiredSceneNode → Option String
  | .mk _ t _ _ => t

/-- The `properties` field of a desired node (empty when absent). -/
def DesiredSceneNode.properties : DesiredSceneNode → List (String × Value)
  | .mk _ _ ps _ => ps

/-- The optional `children` field of a desired node. -/
def DesiredSceneNode.children? : DesiredSceneNode → Option (List DesiredSceneNode)
  | .mk _ _ _ cs => cs

/-- The children of a desired node, defaulting to the empty list
(`desiredChild.children ?? []`). -/
def DesiredSceneNode.childrenList (d : DesiredSceneNode) : List DesiredSceneNode :=
  d.children?.getD []

mutual
/-- Size of a desired node, used as the termination measure of the differ. -/
def DesiredSceneNode.size : DesiredSceneNode → Nat
  | .mk _ _ _ none => 1
  | .mk _ _ _ (some cs) => 1 + DesiredSceneNode.sizeList cs
/-- Total size of a list of desired nodes. -/
def DesiredSceneNode.sizeList : List DesiredSceneNode → Nat
  | [] => 0
  | d :: ds => DesiredSceneNode.size d + DesiredSceneNode.sizeList ds
end

/-- A patch operation (`ScenePatchOperation` in `scene_patch.ts`): the closed
tagged union of the five mutation kinds. Optional fields mirror the
TypeScript optional fields. -/
inductive ScenePatchOperation : Type where
  | create_node (parent_path : Option String) (node_type : Option String) (node_name : String)
      (properties : Option (List (String × Value))) (set_owner : Option Bool)
  | delete_node (node_path : String)
  | set_property (node_path : String) (property : String) (value : Value)
  | rename_node (node_path : String) (new_name : String)
  | reparent_node (node_path : String) (new_parent_path : String)
      (keep_global_transform : Option Bool) (index : Option Int)

/-- Options of `generateScenePatch`, after the defaulting performed at its
entry (`options.allow_delete ?? false`, `strict_types ?? true`,
`detect_renames ?? false`, `reorder_children ?? false`). -/
structure GenerateScenePatchOptions where
  allow_delete : Bool
  strict_types : Bool
  detect_renames : Bool
  reorder_children : Bool
deriving DecidableEq

/-- The default option record of `generateScenePatch`. -/
def defaultOptions : GenerateScenePatchOptions := ⟨false, true, false, false⟩

/-- The mutable result accumulator of `generateScenePatch` (its `operations`,
`errors` and `aliases` closure variables), threaded explicitly. -/
structure DiffAcc where
  operations : List ScenePatchOperation
  errors : List String
  aliases : List (String × String)

/-- The path separator. -/
def slashC : Char := '/'

/-- Split a character list on a separator character (the JavaScript
`String.prototype.split` with the one-character separator used throughout
the sources). -/
def splitOnCharL (sep : Char) : List Char → List (List Char)
  | [] => [[]]
  | c :: cs =>
      match splitOnCharL sep cs with
      | [] => if c = sep then [[], []] else [[c]]
      | g :: gs => if c = sep then [] :: g :: gs else (c :: g) :: gs

/-- Split a string on `/` (`path.split(sep)` in the sources). -/
def splitSlash (s : String) : List String :=
  (splitOnCharL slashC s.toList).map String.mk

/-- Join character groups with a separator (inverse of splitting). -/
def joinWith (sep : List Char) : List (List Char) → List Char
  | [] => []
  | [g] => g
  | g :: gs => g ++ sep ++ joinWith sep gs

/-- Replace the first occurrence of `pat` by `rep` in a character list, as
JavaScript `String.prototype.replace` with a string pattern does. -/
def replaceFirstL (pat rep : List Char) : List Char → List Char
  | [] => []
  | c :: cs =>
      if pat.isPrefixOf (c :: cs) then rep ++ (c :: cs).drop pat.length
      else c :: replaceFirstL pat rep cs

/-- Replace the first occurrence of `pat` in `s` by `rep`, as JavaScript
`String.prototype.replace` with a string pattern does. -/
def replaceFirst (s pat rep : String) : String :=
  String.mk (replaceFirstL pat.toList rep.toList s.toList)

/-- The `childMap` helper of `scene_patch.ts`: name-keyed map over a node's
children (later duplicates overwrite, as with `Map.set`). -/
def childMap (node : SceneTreeNode) : List (String × SceneTreeNode) :=
  node.children.foldl (fun m c => mapSet c.name c m) []

/-- The `desiredChildMap` helper of `scene_patch.ts`, over an explicit
children list. -/
def desiredChildMap (children : List DesiredSceneNode) : List (String × DesiredSceneNode) :=
  children.foldl (fun m c => mapSet c.name c m) []

mutual
/-- The `renameSubtree` helper of `generateScenePatch`: rewrite the `name` of
the root and the `path` prefix of a whole snapshot subtree after a detected
rename. -/
def renameSubtree : SceneTreeNode → String → String → String → SceneTreeNode
  | .mk i _ t p cs, oldPref, newPref, newName =>
      .mk i newName t
        (if p = oldPref then newPref else replaceFirst p (oldPref ++ "/") (newPref ++ "/"))
        (renameSubtreeList cs oldPref newPref)
/-- Children case of `renameSubtree`: each child keeps its own name. -/
def renameSubtreeList : List SceneTreeNode → String → String → List SceneTreeNode
  | [], _, _ => []
  | c :: rest, oldPref, newPref =>
      renameSubtree c oldPref newPref c.name :: renameSubtreeList rest oldPref newPref
end

mutual
/-- The `emitDeletes` helper of `generateScenePatch`: delete operations for a
whole subtree, children before the node itself. -/
def emitDeletes : SceneTreeNode → List ScenePatchOperation
  | .mk _ _ _ p cs => emitDeletesList cs ++ [.delete_node p]
/-- List form of `emitDeletes`. -/
def emitDeletesList : List SceneTreeNode → List ScenePatchOperation
  | [] => []
  | c :: rest => emitDeletes c ++ emitDeletesList rest
end

/-- The per-`diffChildren` matching state: the `matchedExistingNames` and
`usedForRename` sets and the (mutated) `existingByName` map. -/
structure LoopState where
  matchedExistingNames : List String
  usedForRename : List String
  existingByName : List (String × SceneTreeNode)

/-- Whether an existing child passes the child-count compatibility test of
rename detection: when the desired node specifies a children list, its length
must match the existing child's. -/
def childCountCompatible (d : DesiredSceneNode) (ex : SceneTreeNode) : Bool :=
  match d.children? with
  | none => true
  | some dcs => dcs.length == ex.children.length

/-- The candidate filter of `resolveExistingForDesired` (scene_patch.ts lines
132-139): unmatched, not already used for a rename, not claimed by name by
another desired node, same type, compatible child count. -/
def renameCandidates (existingChildren : List SceneTreeNode)
    (desiredByName : List (String × DesiredSceneNode)) (d : DesiredSceneNode) (dtype : String)
    (ls : LoopState) : List SceneTreeNode :=
  existingChildren.filter (fun ex =>
    !(ls.matchedExistingNames.contains ex.name) &&
    !(ls.usedForRename.contains ex.name) &&
    !((mapGet ex.name desiredByName).isSome) &&
    (ex.type == dtype) &&
    childCountCompatible d ex)

/-- The `resolveExistingForDesired` closure of `generateScenePatch`: match a
desired child by name, else (with `detect_renames`) by unambiguous rename
detection, emitting the `rename_node` operation and the alias when a single
candidate exists. Returns the matched (possibly renamed) existing child and
the updated matching state and accumulator. -/
def resolveExistingForDesired (detectRenames : Bool) (existingChildren : List SceneTreeNode)
    (parentPath : String) (desiredByName : List (String × DesiredSceneNode))
    (d : DesiredSceneNode) (ls : LoopState) (acc : DiffAcc) :
    Option SceneTreeNode × LoopState × DiffAcc :=
  match mapGet d.name ls.existingByName with
  | some direct =>
      (some direct, ⟨direct.name :: ls.matchedExistingNames, ls.usedForRename, ls.existingByName⟩,
        acc)
  | none =>
      if !detectRenames then (none, ls, acc)
      else
        match d.type? with
        | none => (none, ls, acc)
        | some dtype =>
            match renameCandidates existingChildren desiredByName d dtype ls with
            | [ex] =>
                let oldPath := parentPath ++ "/" ++ ex.name
                let newPath := parentPath ++ "/" ++ d.name
                let renamed := renameSubtree ex oldPath newPath d.name
                (some renamed,
                  ⟨ex.name :: ls.matchedExistingNames, ex.name :: ls.usedForRename,
                    mapSet d.name renamed ls.existingByName⟩,
                  ⟨acc.operations ++ [.rename_node oldPath d.name], acc.errors,
                    mapSet oldPath newPath acc.aliases⟩)
            | _ => (none, ls, acc)

/-- The aliased current name of an existing child in the reorder phase
(scene_patch.ts line 183): the last path component of its alias when one was
recorded, else its snapshot name. -/
def aliasedName (parentPath : String) (aliases : List (String × String))
    (c : SceneTreeNode) : String :=
  match mapGet (parentPath ++ "/" ++ c.name) aliases with
  | some newPath => String.mk ((((splitOnCharL slashC newPath.toList)).getLast?).getD [])
  | none => c.name

/-- The `currentIndex` map of the reorder phase: name of each current child
to its position, later occurrences overwriting earlier ones. -/
def buildIndex (order : List String) : List (String × Nat) :=
  order.enum.foldl (fun m p => mapSet p.2 p.1 m) []

/-- The reorder phase of `diffChildren` (scene_patch.ts lines 182-197): with
more than one desired child, emit an indexed `reparent_node` for every
desired name whose current (alias-corrected) index differs from its desired
index, in desired order. -/
def reorderOps (parentPath : String) (aliases : List (String × String))
    (existingChildren : List SceneTreeNode) (desiredOrder : List String) :
    List ScenePatchOperation :=
  if desiredOrder.length > 1 then
    let currentOrder := existingChildren.map (aliasedName parentPath aliases)
    let currentIndex := buildIndex currentOrder
    desiredOrder.enum.foldl (fun ops p =>
      if mapGet p.2 currentIndex = some p.1 then ops
      else ops ++ [.reparent_node (parentPath ++ "/" ++ p.2) parentPath (some false)
        (some (p.1 : Int))]) []
  else []

/-- The delete phase of `diffChildren` (scene_patch.ts lines 199-205): with
`allow_delete`, emit subtree deletions for every existing child that was
neither matched nor named by a desired child. -/
def deletePhase (allowDelete : Bool) (matched : List String)
    (desiredByName : List (String × DesiredSceneNode))
    (existingChildren : List SceneTreeNode) : List ScenePatchOperation :=
  if allowDelete then
    existingChildren.foldl (fun ops c =>
      if matched.contains c.name then ops
      else if (mapGet c.name desiredByName).isSome then ops
      else ops ++ emitDeletes c) []
  else []

/-- A desired node is one bigger than its (defaulted) children list. -/
theorem DesiredSceneNode.size_eq (d : DesiredSceneNode) :
    d.size = 1 + DesiredSceneNode.sizeList d.childrenList := by
  cases d with
  | mk n t ps cs =>
      cases cs <;>
        simp [DesiredSceneNode.size, DesiredSceneNode.sizeList, DesiredSceneNode.childrenList,
          DesiredSceneNode.children?]

mutual
/-- The `diffChildren` closure of `generateScenePatch` (scene_patch.ts lines
113-206): match each desired child in order, then the reorder phase, then
the delete phase. The `fuel` argument only makes the recursion structural;
`generateScenePatch` supplies enough fuel for it never to run out (the
measure `5 * sizeList + 3` strictly exceeds the fuel needs of every call
below). -/
def diffChildren (fuel : Nat) (o : GenerateScenePatchOptions) (existingParent : SceneTreeNode)
    (parentPath : String) (desiredChildren : List DesiredSceneNode) (acc : DiffAcc) : DiffAcc :=
  match fuel with
  | 0 => acc
  | fuel + 1 =>
      let existingChildren := existingParent.children
      let desiredByName := desiredChildMap desiredChildren
      let r := diffLoop fuel o existingChildren parentPath desiredByName desiredChildren
        ⟨[], [], childMap existingParent⟩ acc
      let acc2 : DiffAcc :=
        if o.reorder_children then
          ⟨r.2.operations ++
            reorderOps parentPath r.2.aliases existingChildren
              (desiredChildren.map DesiredSceneNode.name),
            r.2.errors, r.2.aliases⟩
        else r.2
      ⟨acc2.operations ++
          deletePhase o.allow_delete r.1.matchedExistingNames desiredByName existingChildren,
        acc2.errors, acc2.aliases⟩

/-- The `for (const desiredChild of desiredChildren)` loop of `diffChildren`
(scene_patch.ts lines 157-180). -/
def diffLoop (fuel : Nat) (o : GenerateScenePatchOptions) (existingChildren : List SceneTreeNode)
    (parentPath : String) (desiredByName : List (String × DesiredSceneNode))
    (pending : List DesiredSceneNode) (ls : LoopState) (acc : DiffAcc) : LoopState × DiffAcc :=
  match fuel with
  | 0 => (ls, acc)
  | fuel + 1 =>
      match pending with
      | [] => (ls, acc)
      | d :: rest =>
          let desiredType := d.type?.getD "Node"
          let nodePath := parentPath ++ "/" ++ d.name
          match resolveExistingForDesired o.detect_renames existingChildren parentPath
            desiredByName d ls acc with
          | (some ex, ls2, acc2) =>
              diffLoop fuel o existingChildren parentPath desiredByName rest ls2
                (diffNode fuel o ex nodePath d acc2)
          | (none, ls2, acc2) =>
              let acc3 : DiffAcc :=
                ⟨acc2.operations ++
                    [.create_node (some parentPath) (some desiredType) d.name
                      (some d.properties) (some true)],
                  acc2.errors, acc2.aliases⟩
              diffLoop fuel o existingChildren parentPath desiredByName rest ls2
                (createChildren fuel o d.name desiredType nodePath d.childrenList acc3)

/-- The nested-create recursion for an unmatched desired child (scene_patch.ts
lines 172-175): each of its children is diffed against a fresh synthetic
empty parent. -/
def createChildren (fuel : Nat) (o : GenerateScenePatchOptions)
    (dname desiredType nodePath : String) (cs : List DesiredSceneNode) (acc : DiffAcc) :
    DiffAcc :=
  match fuel with
  | 0 => acc
  | fuel + 1 =>
      match cs with
      | [] => acc
      | c :: rest =>
          let dummy : SceneTreeNode := .mk none dname desiredType nodePath []
          createChildren fuel o dname desiredType nodePath rest
            (diffChildren fuel o dummy nodePath [c] acc)

/-- The `diffNode` closure of `generateScenePatch` (scene_patch.ts lines
208-225): type check, property emission, recursion into children. -/
def diffNode (fuel : Nat) (o : GenerateScenePatchOptions) (existingNode : SceneTreeNode)
    (nodePath : String) (d : DesiredSceneNode) (acc : DiffAcc) : DiffAcc :=
  match fuel with
  | 0 => acc
  | fuel + 1 =>
      let mismatch := match d.type? with
        | some dt => existingNode.type ≠ dt
        | none => false
      let acc1 : DiffAcc :=
        if mismatch then
          ⟨acc.operations,
            acc.errors ++
              ["Type mismatch at " ++ nodePath ++ ": existing=" ++ existingNode.type ++
                " desired=" ++ (d.type?.getD "")],
            acc.aliases⟩
        else acc
      if mismatch && o.strict_types then acc1
      else
        let acc2 := d.properties.foldl
          (fun a pv => ⟨a.operations ++ [.set_property nodePath pv.1 pv.2], a.errors, a.aliases⟩)
          acc1
        diffChildren fuel o existingNode nodePath d.childrenList acc2
end

/-- The `generateScenePatch` entry point (scene_patch.ts lines 76-238): diff
the desired root children against the live root, then the top-level delete
pass over the live root's children. -/
def generateScenePatch (existingRoot : SceneTreeNode)
    (desiredRootChildren : List DesiredSceneNode) (o : GenerateScenePatchOptions) : DiffAcc :=
  let desiredByName := desiredChildMap desiredRootChildren
  let acc := diffChildren (5 * DesiredSceneNode.sizeList desiredRootChildren + 5) o existingRoot
    "/root" desiredRootChildren ⟨[], [], []⟩
  if o.allow_delete then
    existingRoot.children.foldl
      (fun a c =>
        if (mapGet c.name desiredByName).isSome then a
        else ⟨a.operations ++ emitDeletes c, a.errors, a.aliases⟩)
      acc
  else acc

/-! ### The patch applicator (`_apply_scene_patch` in
`src/addons/godot_mcp/commands/scene_commands.gd`)

The applicator works on live Godot nodes. A live node is modelled as a
`GNode` carrying a reference number (Godot object identity: queued undo/redo
actions capture object references, not paths), a name, a class name, sparse
properties, and ordered children. -/

/-- A live node of the edited scene: reference (object identity), name,
class, properties, children. -/
inductive GNode : Type where
  | mk : Nat → String → String → List (String × Value) → List GNode → GNode

/-- The object reference of a live node. -/
def GNode.ref : GNode → Nat
  | .mk r _ _ _ _ => r

/-- The `name` of a live node. -/
def GNode.name : GNode → String
  | .mk _ n _ _ _ => n

/-- The class name of a live node. -/
def GNode.type : GNode → String
  | .mk _ _ t _ _ => t

/-- The stored properties of a live node. -/
def GNode.props : GNode → List (String × Value)
  | .mk _ _ _ ps _ => ps

/-- The ordered children of a live node. -/
def GNode.children : GNode → List GNode
  | .mk _ _ _ _ cs => cs

/-- Modelled from the spec: the engine environment consulted by validation.
`canInstantiate` models `ClassDB.class_exists(t) and ClassDB.can_instantiate(t)`,
and `hasProperty t p` models the GDScript duck-typing test `p in node` for a
node of class `t` (spec section 9 recommends exactly such a per-type property
schema). Both are engine facilities outside this repository. -/
structure ApplyEnv : Type where
  canInstantiate : String → Bool
  hasProperty : String → String → Bool

mutual
/-- Walk down a live tree following child names (`Node.get_node` on a chain
of names). The first child with a matching name wins. -/
def gwalk : GNode → List String → Option GNode
  | node, [] => some node
  | .mk _ _ _ _ cs, n :: rest => gwalkList cs n rest
/-- Helper of `gwalk`: find the named child and continue the walk. -/
def gwalkList : List GNode → String → List String → Option GNode
  | [], _, _ => none
  | c :: cs, n, rest => if c.name = n then gwalk c rest else gwalkList cs n rest
end

/-- Modelled from the spec: `_get_editor_node` of the base command processor
(declared outside this repository's sources), which resolves a root-relative
`"/root/..."` path against the edited scene root. `"/root"` resolves to the
root itself; each further component names a child. -/
def getEditorNode (root : GNode) (path : String) : Option GNode :=
  match splitSlash path with
  | "" :: "root" :: rest => gwalk root rest
  | _ => none

mutual
/-- Find the parent (by reference) of the node with reference `r`
(`Node.get_parent`). -/
def findParent : GNode → Nat → Option GNode
  | .mk nr nn nt nps cs, r =>
      if (cs.map GNode.ref).contains r then some (.mk nr nn nt nps cs)
      else findParentList cs r
/-- Helper of `findParent` over a child list. -/
def findParentList : List GNode → Nat → Option GNode
  | [], _ => none
  | c :: cs, r =>
      match findParent c r with
      | some p => some p
      | none => findParentList cs r
end

mutual
/-- Rewrite the node with reference `r` through `f`, everywhere in the tree
(references are unique in well-formed trees). -/
def updateRef : GNode → Nat → (GNode → GNode) → GNode
  | .mk nr nn nt nps cs, r, f =>
      if nr = r then f (.mk nr nn nt nps cs)
      else .mk nr nn nt nps (updateRefList cs r f)
/-- Helper of `updateRef` over a child list. -/
def updateRefList : List GNode → Nat → (GNode → GNode) → List GNode
  | [], _, _ => []
  | c :: cs, r, f => updateRef c r f :: updateRefList cs r f
end

mutual
/-- Detach the node with reference `r` from its parent, returning the updated
tree and the detached node (`remove_child`). -/
def detachRef : GNode → Nat → GNode × Option GNode
  | .mk nr nn nt nps cs, r =>
      match cs.find? (fun c => c.ref = r) with
      | some c => (.mk nr nn nt nps (cs.filter (fun c2 => c2.ref ≠ r)), some c)
      | none =>
          let p := detachRefList cs r
          (.mk nr nn nt nps p.1, p.2)
/-- Helper of `detachRef` over a child list. -/
def detachRefList : List GNode → Nat → List GNode × Option GNode
  | [], _ => ([], none)
  | c :: cs, r =>
      let p := detachRef c r
      match p.2 with
      | some d => (p.1 :: cs, some d)
      | none =>
          let q := detachRefList cs r
          (p.1 :: q.1, q.2)
end

/-- Modelled from the spec: `Node.move_child(node, index)` after an
`add_child` that appended the node at the end — the node is moved to position
`index` when that position exists, as `_reparent_node_internal` requests when
an explicit index is given. -/
def moveChildTo (cs : List GNode) (r : Nat) (index : Nat) : List GNode :=
  let without := cs.filter (fun c => c.ref ≠ r)
  match cs.find? (fun c => c.ref = r) with
  | none => cs
  | some c => if index ≤ without.length then without.take index ++ [c] ++ without.drop index
      else cs

/-- An action queued into the undo/redo transaction by `_queue_patch_operation`
(its `add_do_method` / `add_do_property` calls), capturing object references
exactly as the GDScript closures capture node objects. A `create_node`
queues the attach of the freshly instantiated node (with its validated
properties, which the queued `add_do_property` calls will set on that same
object). -/
inductive QueuedAction : Type where
  | qadd (parentRef : Nat) (node : GNode)
  | qremove (parentRef : Nat) (nodeRef : Nat)
  | qsetprop (nodeRef : Nat) (property : String) (value : Value)
  | qrename (nodeRef : Nat) (newName : String)
  | qreparent (nodeRef : Nat) (newParentRef : Nat) (index : Int)

/-- Modelled from the spec: committing one queued do-action against the live
tree (`UndoRedo.commit_action` executing the queued `add_do_method` /
`add_do_property` calls in order). -/
def runAction (root : GNode) : QueuedAction → GNode
  | .qadd parentRef node =>
      updateRef root parentRef (fun p =>
        match p with
        | .mk nr nn nt nps cs => .mk nr nn nt nps (cs ++ [node]))
  | .qremove parentRef nodeRef =>
      updateRef root parentRef (fun p =>
        match p with
        | .mk nr nn nt nps cs => .mk nr nn nt nps (cs.filter (fun c => c.ref ≠ nodeRef)))
  | .qsetprop nodeRef property value =>
      updateRef root nodeRef (fun n =>
        match n with
        | .mk nr nn nt nps cs => .mk nr nn nt (mapSet property value nps) cs)
  | .qrename nodeRef newName =>
      updateRef root nodeRef (fun n =>
        match n with
        | .mk nr _ nt nps cs => .mk nr newName nt nps cs)
  | .qreparent nodeRef newParentRef index =>
      let p := detachRef root nodeRef
      match p.2 with
      | none => root
      | some node =>
          updateRef p.1 newParentRef (fun np =>
            match np with
            | .mk nr nn nt nps cs =>
                if index ≥ 0 then .mk nr nn nt nps (moveChildTo (cs ++ [node]) node.ref index.toNat)
                else .mk nr nn nt nps (cs ++ [node]))

/-- The `_queue_patch_operation` dispatcher of `scene_commands.gd` (lines
211-227 with the per-operation validators at lines 247-401): validate one
operation against the current (pre-commit) tree and produce the queued
do-action, or the single error message the GDScript appends. Each failing
validator appends exactly one message and returns `false`; that is the
`Except.error` case here. `nref` is the next fresh object reference used
when instantiating a node. -/
def queuePatchOperation (env : ApplyEnv) (root : GNode) (nref : Nat) :
    ScenePatchOperation → Except String (QueuedAction × Nat)
  | .create_node parent_path node_type node_name properties _set_owner =>
      let parentPath := parent_path.getD "/root"
      let nodeType := node_type.getD "Node"
      let props := properties.getD []
      if node_name = "" then .error "create_node: node_name cannot be empty"
      else if !env.canInstantiate nodeType then
        .error ("create_node: invalid node_type: " ++ nodeType)
      else
        match getEditorNode root parentPath with
        | none => .error ("create_node: parent not found: " ++ parentPath)
        | some parent =>
            if (parent.children.map GNode.name).contains node_name then
              .error ("create_node: node already exists under parent: " ++ node_name)
            else
              let setProps := props.filter (fun pv => env.hasProperty nodeType pv.1)
              .ok (.qadd parent.ref (.mk nref node_name nodeType setProps []), nref + 1)
  | .delete_node node_path =>
      if node_path = "" then .error "delete_node: node_path cannot be empty"
      else
        match getEditorNode root node_path with
        | none => .error ("delete_node: node not found: " ++ node_path)
        | some node =>
            if node.ref = root.ref then .error "delete_node: cannot delete root node"
            else
              match findParent root node.ref with
              | none => .error "delete_node: node has no parent"
              | some parent => .ok (.qremove parent.ref node.ref, nref)
  | .set_property node_path property value =>
      if node_path = "" || property = "" then
        .error "set_property: node_path and property are required"
      else
        match getEditorNode root node_path with
        | none => .error ("set_property: node not found: " ++ node_path)
        | some node =>
            if !env.hasProperty node.type property then
              .error ("set_property: property does not exist: " ++ property)
            else .ok (.qsetprop node.ref property value, nref)
  | .rename_node node_path new_name =>
      if node_path = "" || new_name = "" then
        .error "rename_node: node_path and new_name are required"
      else
        match getEditorNode root node_path with
        | none => .error ("rename_node: node not found: " ++ node_path)
        | some node =>
            match findParent root node.ref with
            | some parent =>
                if (parent.children.map GNode.name).contains new_name then
                  .error ("rename_node: sibling already exists with name: " ++ new_name)
                else .ok (.qrename node.ref new_name, nref)
            | none => .ok (.qrename node.ref new_name, nref)
  | .reparent_node node_path new_parent_path _keep index =>
      if node_path = "" || new_parent_path = "" then
        .error "reparent_node: node_path and new_parent_path are required"
      else
        match getEditorNode root node_path with
        | none => .error ("reparent_node: node not found: " ++ node_path)
        | some node =>
            if node.ref = root.ref then .error "reparent_node: cannot reparent root node"
            else
              match getEditorNode root new_parent_path with
              | none => .error ("reparent_node: new parent not found: " ++ new_parent_path)
              | some newParent =>
                  match findParent root node.ref with
                  | none => .error "reparent_node: node has no parent"
                  | some _ => .ok (.qreparent node.ref newParent.ref (index.getD (-1)), nref)

/-- The `_apply_patch_operation_immediate` dispatcher of `scene_commands.gd`
(lines 229-245 with the immediate executors at lines 433-568): validate one
operation against the current tree, execute it at once, and return the
updated tree, or the single appended error message. Differences from the
queued path are kept: the immediate `reparent_node` does not check that the
node has a parent. -/
def applyPatchOperationImmediate (env : ApplyEnv) (root : GNode) (nref : Nat) :
    ScenePatchOperation → Except String (GNode × Nat)
  | .create_node parent_path node_type node_name properties _set_owner =>
      let parentPath := parent_path.getD "/root"
      let nodeType := node_type.getD "Node"
      let props := properties.getD []
      if node_name = "" then .error "create_node: node_name cannot be empty"
      else if !env.canInstantiate nodeType then
        .error ("create_node: invalid node_type: " ++ nodeType)
      else
        match getEditorNode root parentPath with
        | none => .error ("create_node: parent not found: " ++ parentPath)
        | some parent =>
            if (parent.children.map GNode.name).contains node_name then
              .error ("create_node: node already exists under parent: " ++ node_name)
            else
              let setProps := props.filter (fun pv => env.hasProperty nodeType pv.1)
              let node : GNode := .mk nref node_name nodeType setProps []
              .ok (runAction root (.qadd parent.ref node), nref + 1)
  | .delete_node node_path =>
      if node_path = "" then .error "delete_node: node_path cannot be empty"
      else
        match getEditorNode root node_path with
        | none => .error ("delete_node: node not found: " ++ node_path)
        | some node =>
            if node.ref = root.ref then .error "delete_node: cannot delete root node"
            else
              match findParent root node.ref with
              | none => .error "delete_node: node has no parent"
              | some parent => .ok (runAction root (.qremove parent.ref node.ref), nref)
  | .set_property node_path property value =>
      if node_path = "" || property = "" then
        .error "set_property: node_path and property are required"
      else
        match getEditorNode root node_path with
        | none => .error ("set_property: node not found: " ++ node_path)
        | some node =>
            if !env.hasProperty node.type property then
              .error ("set_property: property does not exist: " ++ property)
            else .ok (runAction root (.qsetprop node.ref property value), nref)
  | .rename_node node_path new_name =>
      if node_path = "" || new_name = "" then
        .error "rename_node: node_path and new_name are required"
      else
        match getEditorNode root node_path with
        | none => .error ("rename_node: node not found: " ++ node_path)
        | some node =>
            match findParent root node.ref with
            | some parent =>
                if (parent.children.map GNode.name).contains new_name then
                  .error ("rename_node: sibling already exists with name: " ++ new_name)
                else .ok (runAction root (.qrename node.ref new_name), nref)
            | none => .ok (runAction root (.qrename node.ref new_name), nref)
  | .reparent_node node_path new_parent_path _keep index =>
      if node_path = "" || new_parent_path = "" then
        .error "reparent_node: node_path and new_parent_path are required"
      else
        match getEditorNode root node_path with
        | none => .error ("reparent_node: node not found: " ++ node_path)
        | some node =>
            if node.ref = root.ref then .error "reparent_node: cannot reparent root node"
            else
              match getEditorNode root new_parent_path with
              | none => .error ("reparent_node: new parent not found: " ++ new_parent_path)
              | some newParent =>
                  .ok (runAction root (.qreparent node.ref newParent.ref (index.getD (-1))), nref)

/-- The result dictionary built by `_apply_scene_patch` (lines 198-204):
`applied`, `total`, `used_undo_redo`, and the error list (present in the
dictionary only when non-empty; kept as a plain list here). -/
structure ApplyResult where
  applied : Nat
  total : Nat
  used_undo_redo : Bool
  errors : List String

/-- The response sent back by `_apply_scene_patch`: `_send_success` with the
result dictionary, or `_send_error` with a single message. -/
inductive ApplyResponse : Type where
  | success : ApplyResult → ApplyResponse
  | error : String → ApplyResponse

/-- The full observable outcome of `_apply_scene_patch`: the result record it
builds, the response it sends, and the edited tree afterwards. -/
structure ApplyOutcome where
  result : ApplyResult
  response : ApplyResponse
  tree : GNode

/-- The queuing loop of `_apply_scene_patch` (lines 167-185) when an
undo/redo manager is available: validate and queue each operation against the
pre-batch tree, stopping at the first error under `strict`. Returns
(queued count, errors, queued actions, next reference). -/
def queueLoop (env : ApplyEnv) (root : GNode) (strict : Bool) :
    List ScenePatchOperation → Nat → Nat × List String × List QueuedAction × Nat
  | [], nref => (0, [], [], nref)
  | op :: rest, nref =>
      match queuePatchOperation env root nref op with
      | .ok (act, nref2) =>
          let r := queueLoop env root strict rest nref2
          (r.1 + 1, r.2.1, act :: r.2.2.1, r.2.2.2)
      | .error e => if strict then (0, [e], [], nref)
          else
            let r := queueLoop env root strict rest nref
            (r.1, e :: r.2.1, r.2.2.1, r.2.2.2)

/-- The immediate loop of `_apply_scene_patch` when no undo/redo manager is
available: apply each operation at once, stopping at the first error under
`strict`. Returns (applied count, errors, final tree, next reference). -/
def immediateLoop (env : ApplyEnv) (strict : Bool) :
    List ScenePatchOperation → GNode → Nat → Nat × List String × GNode × Nat
  | [], root, nref => (0, [], root, nref)
  | op :: rest, root, nref =>
      match applyPatchOperationImmediate env root nref op with
      | .ok (root2, nref2) =>
          let r := immediateLoop env strict rest root2 nref2
          (r.1 + 1, r.2.1, r.2.2.1, r.2.2.2)
      | .error e => if strict then (0, [e], root, nref)
          else
            let r := immediateLoop env strict rest root nref
            (r.1, e :: r.2.1, r.2.2.1, r.2.2.2)

/-- The `_apply_scene_patch` command handler of `scene_commands.gd` (lines
143-209). With an undo/redo manager (`hasUndoRedo`), all operations are
queued against the pre-batch tree and committed as one transaction unless
`strict` saw an error, in which case nothing is committed and `applied`
stays `0`; without one, operations are applied immediately. The response is
`_send_error` with the first error under `strict`, else `_send_success`
with the result. -/
def applyScenePatch (env : ApplyEnv) (hasUndoRedo : Bool) (root : GNode) (nref : Nat)
    (operations : List ScenePatchOperation) (strict : Bool) : ApplyOutcome :=
  if operations.isEmpty then
    ⟨⟨0, 0, hasUndoRedo, []⟩, .error "operations must be a non-empty array", root⟩
  else if hasUndoRedo then
    let r := queueLoop env root strict operations nref
    let queued := r.1
    let errors := r.2.1
    let actions := r.2.2.1
    if strict && !errors.isEmpty then
      let result : ApplyResult := ⟨0, operations.length, true, errors⟩
      ⟨result, .error (errors.headD ""), root⟩
    else
      let root2 := actions.foldl runAction root
      let result : ApplyResult := ⟨queued, operations.length, true, errors⟩
      ⟨result, .success result, root2⟩
  else
    let r := immediateLoop env strict operations root nref
    let applied := r.1
    let errors := r.2.1
    let root2 := r.2.2.1
    let result : ApplyResult := ⟨applied, operations.length, false, errors⟩
    if strict && !errors.isEmpty then ⟨result, .error (errors.headD ""), root2⟩
    else ⟨result, .success result, root2⟩

/-! ### The identity resolver (`resolveScenePatchOperations` in
`src/server/src/tools/scene_tools.ts`) -/

/-- An operation as accepted by the `apply_scene_patch` tool
(`ApplyScenePatchOperation` in `scene_tools.ts`): each target may be
addressed by path, by stable id, or both. -/
inductive ApplyScenePatchOperation : Type where
  | create_node (parent_path parent_id : Option String) (node_type : Option String)
      (node_name : String) (properties : Option (List (String × Value))) (set_owner : Option Bool)
  | delete_node (node_path node_id : Option String)
  | set_property (node_path node_id : Option String) (property : String) (value : Value)
  | rename_node (node_path node_id : Option String) (new_name : String)
  | reparent_node (node_path node_id new_parent_path new_parent_id : Option String)
      (keep_global_transform : Option Bool) (index : Option Int)

/-- JavaScript truthiness of an optional string field: present and
non-empty. -/
def truthy : Option String → Bool
  | none => false
  | some s => s ≠ ""

/-- The validation pre-pass of `resolveScenePatchOperations` (scene_tools.ts
lines 101-132): every operation must carry the fields it requires; the first
violation throws. -/
def validateApplyOps : List ApplyScenePatchOperation → Except String Unit
  | [] => .ok ()
  | op :: rest =>
      match op with
      | .create_node _ _ _ node_name _ _ =>
          if node_name = "" then .error "create_node requires node_name"
          else validateApplyOps rest
      | .delete_node node_path node_id =>
          if !truthy node_path && !truthy node_id then
            .error "delete_node requires node_path or node_id"
          else validateApplyOps rest
      | .set_property node_path node_id _ _ =>
          if !truthy node_path && !truthy node_id then
            .error "set_property requires node_path or node_id"
          else validateApplyOps rest
      | .rename_node node_path node_id _ =>
          if !truthy node_path && !truthy node_id then
            .error "rename_node requires node_path or node_id"
          else validateApplyOps rest
      | .reparent_node node_path node_id new_parent_path new_parent_id _ _ =>
          if !truthy node_path && !truthy node_id then
            .error "reparent_node requires node_path or node_id"
          else if !truthy new_parent_path && !truthy new_parent_id then
            .error "reparent_node requires new_parent_path or new_parent_id"
          else validateApplyOps rest

/-- Whether an operation references any stable id (the `needsIds` test of
scene_tools.ts lines 134-139). -/
def opNeedsIds : ApplyScenePatchOperation → Bool
  | .create_node _ parent_id _ _ _ _ => truthy parent_id
  | .delete_node _ node_id => truthy node_id
  | .set_property _ node_id _ _ => truthy node_id
  | .rename_node _ node_id _ => truthy node_id
  | .reparent_node _ node_id _ new_parent_id _ _ => truthy node_id || truthy new_parent_id

/-- The `normalizeWithoutIds` helper (scene_tools.ts lines 141-167): strip id
fields, defaulting absent paths to the empty string. -/
def normalizeWithoutIds : ApplyScenePatchOperation → ScenePatchOperation
  | .create_node parent_path _ node_type node_name properties set_owner =>
      .create_node parent_path node_type node_name properties set_owner
  | .delete_node node_path _ => .delete_node (node_path.getD "")
  | .set_property node_path _ property value => .set_property (node_path.getD "") property value
  | .rename_node node_path _ new_name => .rename_node (node_path.getD "") new_name
  | .reparent_node node_path _ new_parent_path _ keep index =>
      .reparent_node (node_path.getD "") (new_parent_path.getD "") keep index

mutual
/-- The `indexIds` walk (scene_tools.ts lines 178-182): collect
`id -> currentPath` over the snapshot, node before children. -/
def indexIds : SceneTreeNode → List (String × String) → List (String × String)
  | .mk i _ _ p cs, m =>
      indexIdsList cs (if truthy i then mapSet (i.getD "") p m else m)
/-- Helper of `indexIds` over a child list. -/
def indexIdsList : List SceneTreeNode → List (String × String) → List (String × String)
  | [], m => m
  | c :: cs, m => indexIdsList cs (indexIds c m)
end

/-- The `resolveIdToPath` helper (scene_tools.ts lines 184-188): an unknown
id is a fatal error naming the id. -/
def resolveIdToPath (m : List (String × String)) (id label : String) : Except String String :=
  match mapGet id m with
  | some path => .ok path
  | none => .error (label ++ " id not found in edited scene: " ++ id)

/-- Everything of a path before its last `/` component
(`nodePath.substring(0, nodePath.lastIndexOf(sep))`). -/
def parentDirOf (p : String) : String :=
  String.mk (joinWith [slashC] ((splitOnCharL slashC p.toList).dropLast))

/-- The last `/` component of a path (`nodePath.split(sep).pop()`). -/
def lastCompOf (p : String) : String :=
  String.mk (((splitOnCharL slashC p.toList).getLast?).getD [])

/-- One step of the id-resolution replay (the `switch` of scene_tools.ts
lines 191-293): translate one operation to a path-addressed one and update
the `id -> path` map for deletions, renames and reparents of id-addressed
nodes. -/
def resolveStep (m : List (String × String)) :
    ApplyScenePatchOperation → Except String (ScenePatchOperation × List (String × String))
  | .create_node parent_path parent_id node_type node_name properties set_owner =>
      if truthy parent_id then
        match resolveIdToPath m (parent_id.getD "") "parent" with
        | .error e => .error e
        | .ok resolvedParentPath =>
            if truthy parent_path && parent_path ≠ some resolvedParentPath then
              .error ("parent_id " ++ parent_id.getD "" ++ " resolves to " ++ resolvedParentPath
                ++ ", but parent_path was " ++ parent_path.getD "")
            else
              .ok (.create_node (some resolvedParentPath) node_type node_name properties
                set_owner, m)
      else .ok (.create_node (some (parent_path.getD "/root")) node_type node_name properties
        set_owner, m)
  | .delete_node node_path node_id =>
      if truthy node_id then
        match resolveIdToPath m (node_id.getD "") "node" with
        | .error e => .error e
        | .ok resolvedNodePath =>
            if truthy node_path && node_path ≠ some resolvedNodePath then
              .error ("node_id " ++ node_id.getD "" ++ " resolves to " ++ resolvedNodePath
                ++ ", but node_path was " ++ node_path.getD "")
            else .ok (.delete_node resolvedNodePath, mapDelete (node_id.getD "") m)
      else .ok (.delete_node (node_path.getD ""), m)
  | .set_property node_path node_id property value =>
      if truthy node_id then
        match resolveIdToPath m (node_id.getD "") "node" with
        | .error e => .error e
        | .ok resolvedNodePath =>
            if truthy node_path && node_path ≠ some resolvedNodePath then
              .error ("node_id " ++ node_id.getD "" ++ " resolves to " ++ resolvedNodePath
                ++ ", but node_path was " ++ node_path.getD "")
            else .ok (.set_property resolvedNodePath property value, m)
      else .ok (.set_property (node_path.getD "") property value, m)
  | .rename_node node_path node_id new_name =>
      if truthy node_id then
        match resolveIdToPath m (node_id.getD "") "node" with
        | .error e => .error e
        | .ok resolvedNodePath =>
            if truthy node_path && node_path ≠ some resolvedNodePath then
              .error ("node_id " ++ node_id.getD "" ++ " resolves to " ++ resolvedNodePath
                ++ ", but node_path was " ++ node_path.getD "")
            else
              .ok (.rename_node resolvedNodePath new_name,
                mapSet (node_id.getD "") (parentDirOf resolvedNodePath ++ "/" ++ new_name) m)
      else .ok (.rename_node (node_path.getD "") new_name, m)
  | .reparent_node node_path node_id new_parent_path new_parent_id keep index =>
      let stepNode : Except String String :=
        if truthy node_id then
          match resolveIdToPath m (node_id.getD "") "node" with
          | .error e => .error e
          | .ok resolvedNodePath =>
              if truthy node_path && node_path ≠ some resolvedNodePath then
                .error ("node_id " ++ node_id.getD "" ++ " resolves to " ++ resolvedNodePath
                  ++ ", but node_path was " ++ node_path.getD "")
              else .ok resolvedNodePath
        else .ok (node_path.getD "")
      match stepNode with
      | .error e => .error e
      | .ok nodePath =>
          let stepParent : Except String String :=
            if truthy new_parent_id then
              match resolveIdToPath m (new_parent_id.getD "") "new_parent" with
              | .error e => .error e
              | .ok resolvedParentPath =>
                  if truthy new_parent_path && new_parent_path ≠ some resolvedParentPath then
                    .error ("new_parent_id " ++ new_parent_id.getD "" ++ " resolves to "
                      ++ resolvedParentPath ++ ", but new_parent_path was "
                      ++ new_parent_path.getD "")
                  else .ok resolvedParentPath
            else .ok (new_parent_path.getD "")
          match stepParent with
          | .error e => .error e
          | .ok newParentPath =>
              let m2 := if truthy node_id && newParentPath ≠ "" then
                  mapSet (node_id.getD "") (newParentPath ++ "/" ++ lastCompOf nodePath) m
                else m
              .ok (.reparent_node nodePath newParentPath keep index, m2)

/-- The replay loop of `resolveScenePatchOperations`, in order, threading the
`id -> path` map. -/
def resolveLoop (m : List (String × String)) :
    List ApplyScenePatchOperation →
      Except String (List ScenePatchOperation × List (String × String))
  | [] => .ok ([], m)
  | op :: rest =>
      match resolveStep m op with
      | .error e => .error e
      | .ok (rop, m2) =>
          match resolveLoop m2 rest with
          | .error e => .error e
          | .ok (rops, m3) => .ok (rop :: rops, m3)

/-- The `resolveScenePatchOperations` helper of `scene_tools.ts` (lines
97-297): validate, short-circuit to `normalizeWithoutIds` when no operation
uses ids, else build the id index from the snapshot and replay the batch. -/
def resolveScenePatchOperations (snapshot : SceneTreeNode)
    (operations : List ApplyScenePatchOperation) : Except String (List ScenePatchOperation) :=
  match validateApplyOps operations with
  | .error e => .error e
  | .ok _ =>
      if !operations.any opNeedsIds then .ok (operations.map normalizeWithoutIds)
      else
        match resolveLoop (indexIds snapshot []) operations with
        | .error e => .error e
        | .ok (rops, _) => .ok rops

/-! ### The property-equality filter (`stableStringify` and the
`set_property` filter of `generate_scene_patch.execute` in
`scene_tools.ts`)

`stableStringify` is modelled on character lists. JSON string escaping is
modelled for the two structurally significant characters (quote and
backslash); the decimal rendering of numbers follows `JSON.stringify` on
integers. -/

/-- The double-quote character. -/
def quoteC : Char := Char.ofNat 34

/-- The backslash character. -/
def backslashC : Char := Char.ofNat 92

/-- The left-brace character. -/
def lbraceC : Char := Char.ofNat 123

/-- The right-brace character. -/
def rbraceC : Char := Char.ofNat 125

/-- The left-bracket character. -/
def lbrackC : Char := Char.ofNat 91

/-- The right-bracket character. -/
def rbrackC : Char := Char.ofNat 93

/-- The comma character. -/
def commaC : Char := Char.ofNat 44

/-- The colon character. -/
def colonC : Char := Char.ofNat 58

/-- The minus character. -/
def minusC : Char := Char.ofNat 45

/-- JSON string-content escaping (`JSON.stringify` on strings): quotes and
backslashes are escaped; other characters stand for themselves. -/
def escapeChars : List Char → List Char
  | [] => []
  | c :: cs =>
      (if c = quoteC then [backslashC, quoteC]
        else if c = backslashC then [backslashC, backslashC]
        else [c]) ++ escapeChars cs

/-- A JSON string literal: quote, escaped content, quote. -/
def strChars (s : String) : List Char := quoteC :: (escapeChars s.toList ++ [quoteC])

/-- The decimal digit character of `n < 10`. -/
def digitChar (n : Nat) : Char := Char.ofNat (48 + n)

/-- Decimal digits of a natural number, most significant first; the fuel
argument makes the recursion structural and any `fuel > 0` with `n < 10 ^
fuel` is enough. -/
def natDigitsAux : Nat → Nat → List Char
  | 0, _ => []
  | fuel + 1, n => if n < 10 then [digitChar n] else natDigitsAux fuel (n / 10) ++ [digitChar (n % 10)]

/-- Decimal rendering of a natural number. -/
def natToChars (n : Nat) : List Char := natDigitsAux (n + 1) n

/-- Decimal rendering of an integer, as `JSON.stringify` renders
integer-valued numbers. -/
def intToChars : Int → List Char
  | .ofNat n => natToChars n
  | .negSucc n => minusC :: natToChars (n + 1)

/-- Lexicographic comparison of character lists by code point, the order
`Array.prototype.sort` applies to `Object.keys`. -/
def charsLe : List Char → List Char → Bool
  | [], _ => true
  | _ :: _, [] => false
  | c :: cs, d :: ds =>
      if c.toNat < d.toNat then true
      else if d.toNat < c.toNat then false
      else charsLe cs ds

/-- Insert a field into a key-sorted field list (stable). -/
def orderedInsertKey (p : String × Value) : List (String × Value) → List (String × Value)
  | [] => [p]
  | q :: qs => if charsLe p.1.toList q.1.toList then p :: q :: qs else q :: orderedInsertKey p qs

/-- Sort an object's fields by key (`Object.keys(value).sort()`; on records
the keys are unique, so sorting the pairs by key and serializing each pair
agrees with sorting the keys and looking each one up). -/
def sortFields : List (String × Value) → List (String × Value)
  | [] => []
  | p :: ps => orderedInsertKey p (sortFields ps)

mutual
/-- In-order serialization of a value to characters: `undefined` renders as
the bare word, atoms via `JSON.stringify`, arrays element-wise, object
fields in their list order. `stableStringify` (below) composes this with
`canon`, which sorts object keys at every level — exactly what the source's
`stableStringify` does by calling `Object.keys(value).sort()` at each
recursion step. -/
def ssChars : Value → List Char
  | .vundef => ['u', 'n', 'd', 'e', 'f', 'i', 'n', 'e', 'd']
  | .vnull => ['n', 'u', 'l', 'l']
  | .vbool true => ['t', 'r', 'u', 'e']
  | .vbool false => ['f', 'a', 'l', 's', 'e']
  | .vnum i => intToChars i
  | .vstr s => strChars s
  | .varr xs => lbrackC :: (ssElems xs ++ [rbrackC])
  | .vobj fs => lbraceC :: (ssFields fs ++ [rbraceC])
/-- Comma-joined serialization of array elements. -/
def ssElems : List Value → List Char
  | [] => []
  | [x] => ssChars x
  | x :: xs => ssChars x ++ (commaC :: ssElems xs)
/-- Comma-joined serialization of object fields, in list order. -/
def ssFields : List (String × Value) → List Char
  | [] => []
  | [(k, v)] => strChars k ++ (colonC :: ssChars v)
  | (k, v) :: fs => strChars k ++ (colonC :: (ssChars v ++ (commaC :: ssFields fs)))
end

mutual
/-- Canonical form of a value under order-independent structural equality:
object keys sorted recursively. This is both the comparison the
specification describes for the property filter and the key ordering the
source's `stableStringify` imposes while serializing (`Object.keys(value)
.sort()`; object keys are unique, so sorting the field pairs by key agrees
with sorting the keys and looking each one up). -/
def canon : Value → Value
  | .vundef => .vundef
  | .vnull => .vnull
  | .vbool b => .vbool b
  | .vnum i => .vnum i
  | .vstr s => .vstr s
  | .varr xs => .varr (canonList xs)
  | .vobj fs => .vobj (sortFields (canonFields fs))
/-- Canonical forms of a list of values. -/
def canonList : List Value → List Value
  | [] => []
  | x :: xs => canon x :: canonList xs
/-- Canonical forms of the values of a field list (keys untouched). -/
def canonFields : List (String × Value) → List (String × Value)
  | [] => []
  | (k, v) :: fs => (k, canon v) :: canonFields fs
end

/-- The `stableStringify` helper of `generate_scene_patch.execute`
(scene_tools.ts lines 542-548): serialize with object keys in sorted order
at every level. The source sorts while serializing; here the sorting is
factored into `canon` followed by the in-order serializer `ssChars`. -/
def stableStringify (v : Value) : String := String.mk (ssChars (canon v))

/-- Structural equality of two values, order-independent for object keys:
equality of canonical forms. This is the specification-side comparison the
filter claim refers to. -/
def structEq (a b : Value) : Prop := canon a = canon b

/-! #### A parser for the `stableStringify` grammar, used to prove that the
serialization is injective up to canonical form. -/

/-- Decimal digit test. -/
def isDigitC (c : Char) : Bool := 48 ≤ c.toNat && c.toNat ≤ 57

/-- Match a literal prefix, returning the rest of the input. -/
def matchPref : List Char → List Char → Option (List Char)
  | [], cs => some cs
  | _, [] => none
  | p :: ps, c :: cs => if c = p then matchPref ps cs else none

/-- Parse the content of a string literal after its opening quote: a
backslash takes the next character verbatim (inverting `escapeChars`), a
quote ends the literal. -/
def parseStrAux : List Char → List Char → Option (List Char × List Char)
  | _, [] => none
  | acc, c :: cs =>
      if c = quoteC then some (acc.reverse, cs)
      else if c = backslashC then
        match cs with
        | [] => none
        | e :: cs2 => parseStrAux (e :: acc) cs2
      else parseStrAux (c :: acc) cs

/-- Accumulate decimal digits (most significant first). -/
def parseNatAux (acc : Nat) : List Char → Nat × List Char
  | [] => (acc, [])
  | c :: cs => if isDigitC c then parseNatAux (acc * 10 + (c.toNat - 48)) cs else (acc, c :: cs)

/-- Parse a non-empty run of decimal digits. -/
def parseNatChars : List Char → Option (Nat × List Char)
  | [] => none
  | c :: cs => if isDigitC c then some (parseNatAux (c.toNat - 48) cs) else none

mutual
/-- Fueled parser for the `stableStringify` grammar; any fuel of at least
`vsize` of the rendered value suffices. -/
def parseVal : Nat → List Char → Option (Value × List Char)
  | 0, _ => none
  | fuel + 1, cs =>
      match cs with
      | [] => none
      | c :: rest =>
          if c = 'u' then
            (matchPref ['n', 'd', 'e', 'f', 'i', 'n', 'e', 'd'] rest).map
              (fun r => (.vundef, r))
          else if c = 'n' then
            (matchPref ['u', 'l', 'l'] rest).map (fun r => (.vnull, r))
          else if c = 't' then
            (matchPref ['r', 'u', 'e'] rest).map (fun r => (.vbool true, r))
          else if c = 'f' then
            (matchPref ['a', 'l', 's', 'e'] rest).map (fun r => (.vbool false, r))
          else if c = minusC then
            (parseNatChars rest).map (fun p => (.vnum (-(p.1 : Int)), p.2))
          else if isDigitC c then
            (parseNatChars (c :: rest)).map (fun p => (.vnum (p.1 : Int), p.2))
          else if c = quoteC then
            (parseStrAux [] rest).map (fun p => (.vstr (String.mk p.1), p.2))
          else if c = lbrackC then
            match rest with
            | c2 :: r2 =>
                if c2 = rbrackC then some (.varr [], r2)
                else (parseElems fuel rest).map (fun p => (.varr p.1, p.2))
            | [] => none
          else if c = lbraceC then
            match rest with
            | c2 :: r2 =>
                if c2 = rbraceC then some (.vobj [], r2)
                else (parseFields fuel rest).map (fun p => (.vobj p.1, p.2))
            | [] => none
          else none
/-- Parse one or more comma-separated elements up to the closing bracket. -/
def parseElems : Nat → List Char → Option (List Value × List Char)
  | 0, _ => none
  | fuel + 1, cs =>
      match parseVal fuel cs with
      | none => none
      | some (v, r) =>
          match r with
          | c :: r2 =>
              if c = commaC then (parseElems fuel r2).map (fun p => (v :: p.1, p.2))
              else if c = rbrackC then some ([v], r2)
              else none
          | [] => none
/-- Parse one or more comma-separated `"key":value` fields up to the closing
brace. -/
def parseFields : Nat → List Char → Option (List (String × Value) × List Char)
  | 0, _ => none
  | fuel + 1, cs =>
      match cs with
      | [] => none
      | c :: rest =>
          if c = quoteC then
            match parseStrAux [] rest with
            | none => none
            | some (kchars, r1) =>
                match r1 with
                | c2 :: r2 =>
                    if c2 = colonC then
                      match parseVal fuel r2 with
                      | none => none
                      | some (v, r3) =>
                          match r3 with
                          | c3 :: r4 =>
                              if c3 = commaC then
                                (parseFields fuel r4).map
                                  (fun p => ((String.mk kchars, v) :: p.1, p.2))
                              else if c3 = rbraceC then some ([(String.mk kchars, v)], r4)
                              else none
                          | [] => none
                    else none
                | [] => none
          else none
end

mutual
/-- Parser fuel needed for a value (also a size measure). -/
def vsize : Value → Nat
  | .varr xs => 1 + vsizeList xs
  | .vobj fs => 1 + vsizeFields fs
  | _ => 1
/-- Parser fuel needed for a list of array elements. -/
def vsizeList : List Value → Nat
  | [] => 0
  | x :: xs => 1 + vsize x + vsizeList xs
/-- Parser fuel needed for a list of object fields. -/
def vsizeFields : List (String × Value) → Nat
  | [] => 0
  | (_, v) :: fs => 1 + vsize v + vsizeFields fs
end

/-- The reverse alias map built by `generate_scene_patch.execute`
(scene_tools.ts lines 561-562): `newPath -> oldPath` for each recorded
alias. -/
def reverseAliasMap (aliases : List (String × String)) : List (String × String) :=
  aliases.foldl (fun m kv => mapSet kv.2 kv.1 m) []

/-- The `set_property` filter of `generate_scene_patch.execute`
(scene_tools.ts lines 590-611). `getProps` is the property snapshot: the
`propsByPath` cache built from the scene structure, extended by
`get_node_properties` fetches, with `none` for nodes whose properties could
not be obtained. A `set_property` is dropped exactly when the snapshot knows
the target property and its `stableStringify` agrees with the desired
value's; all other operations pass through. -/
def filterSetProperties (getProps : String → Option (List (String × Value)))
    (reverseAliases : List (String × String)) :
    List ScenePatchOperation → List ScenePatchOperation
  | [] => []
  | op :: rest =>
      match op with
      | .set_property node_path property value =>
          let queryPath := (mapGet node_path reverseAliases).getD node_path
          (match getProps queryPath with
            | none => [.set_property node_path property value]
            | some props =>
                match mapGet property props with
                | none => [.set_property node_path property value]
                | some current =>
                    if stableStringify current = stableStringify value then []
                    else [.set_property node_path property value]) ++
            filterSetProperties getProps reverseAliases rest
      | other => other :: filterSetProperties getProps reverseAliases rest

/-! ### A tree expressed as its own desired form (for the idempotence
property) -/

mutual
/-- A live snapshot node expressed as its own desired form: same name, same
type, same children; no property requests. -/
def toDesired : SceneTreeNode → DesiredSceneNode
  | .mk _ n t _ cs => .mk n (some t) [] (some (toDesiredList cs))
/-- List form of `toDesired`. -/
def toDesiredList : List SceneTreeNode → List DesiredSceneNode
  | [] => []
  | c :: cs => toDesired c :: toDesiredList cs
end

mutual
/-- Well-formedness of a snapshot tree: sibling names are unique at every
level (the data-model invariant `name: unique among siblings`). -/
def wfTree : SceneTreeNode → Bool
  | .mk _ _ _ _ cs => decide ((cs.map SceneTreeNode.name).Nodup) && wfTreeList cs
/-- List form of `wfTree`. -/
def wfTreeList : List SceneTreeNode → Bool
  | [] => true
  | c :: cs => wfTree c && wfTreeList cs
end

/-! ### Basic association-list lemmas -/

/-- Setting a key makes it the value returned by lookup. -/
theorem mapGet_mapSet_self {α : Type} (k : String) (v : α) (m : List (String × α)) :
    mapGet k (mapSet k v m) = some v := by
  induction m with
  | nil => simp [mapGet, mapSet]
  | cons p rest ih =>
      obtain ⟨k2, v2⟩ := p
      by_cases h : k2 = k
      · simp [mapGet, mapSet, h]
      · simp [mapGet, mapSet, h, ih]

/-- Setting one key leaves other keys' lookups unchanged. -/
theorem mapGet_mapSet_other {α : Type} (k k2 : String) (v : α) (m : List (String × α))
    (h : k2 ≠ k) : mapGet k2 (mapSet k v m) = mapGet k2 m := by
  induction m with
  | nil => simp [mapGet, mapSet, Ne.symm h]
  | cons p rest ih =>
      obtain ⟨k3, v3⟩ := p
      by_cases h3 : k3 = k
      · subst h3
        simp [mapGet, mapSet, Ne.symm h]
      · simp [mapGet, mapSet, h3, ih]

/-! ### Concrete scenes used by the concrete theorems -/

/-- An engine environment in which every class is instantiable and every
property exists (the permissive case; validation failures in the concrete
theorems then come from the patch logic itself). -/
def envAll : ApplyEnv := ⟨fun _ => true, fun _ _ => true⟩

/-- An empty live root, applicator side. -/
def liveRootEmpty : GNode := .mk 0 "Root" "Node" [] []

/-- An empty live root, snapshot side. -/
def snapRootEmpty : SceneTreeNode := .mk none "Root" "Node" "/root" []

/-- The desired tree `B` of the round-trip counterexample: one new child
`UI` containing one new child `Label`. -/
def desiredUI : DesiredSceneNode :=
  .mk "UI" (some "Node") [] (some [.mk "Label" (some "Node") [] none])

/-- Snapshot with a single child `X`. -/
def snapRootX : SceneTreeNode :=
  .mk none "Root" "Node" "/root" [.mk none "X" "Node" "/root/X" []]

/-- Snapshot with a single child `OldName` of type `Node2D`. -/
def snapRootOld : SceneTreeNode :=
  .mk none "Root" "Node" "/root" [.mk none "OldName" "Node2D" "/root/OldName" []]

/-! ### C1 — round-trip of `generateScenePatch` through `apply_scene_patch` -/

/-- C1: the round-trip claim fails on the code. For the live tree `A` =
empty root and desired tree `B` = `UI` with child `Label` (defaults,
`strict=true`), `generateScenePatch` emits the two nested `create_node`
operations, but the transactional applicator validates each queued operation
against the pre-commit tree, so the second create fails with `parent not
found`, the transaction is not committed, zero operations are applied, and
the tree stays `A` — not structurally equal to `B`, which requires a child
`UI`. (The undo/redo transaction and `_get_editor_node` are modelled from
the spec; queued do-methods execute only at commit.) -/
theorem roundtrip_strict_transactional_apply_fails :
    (generateScenePatch snapRootEmpty [desiredUI] defaultOptions).operations =
        [.create_node (some "/root") (some "Node") "UI" (some []) (some true),
          .create_node (some "/root/UI") (some "Node") "Label" (some []) (some true)] ∧
      (generateScenePatch snapRootEmpty [desiredUI] defaultOptions).errors = [] ∧
      (applyScenePatch envAll true liveRootEmpty 1
          (generateScenePatch snapRootEmpty [desiredUI] defaultOptions).operations
          true).result.applied = 0 ∧
      (applyScenePatch envAll true liveRootEmpty 1
          (generateScenePatch snapRootEmpty [desiredUI] defaultOptions).operations
          true).tree = liveRootEmpty ∧
      (applyScenePatch envAll true liveRootEmpty 1
          (generateScenePatch snapRootEmpty [desiredUI] defaultOptions).operations
          true).response = .error "create_node: parent not found: /root/UI" ∧
      liveRootEmpty.children = [] := by
  refine ⟨rfl, rfl, rfl, rfl, rfl, rfl⟩

/-! ### C3 — delete emission for unmatched live children -/

/-- C3: the claim that every node of an unmatched live child's subtree
receives exactly one `delete_node`, and that a rename-matched child is never
deleted, fails at the root level. With `allow_delete`, the unmatched root
child `X` receives two `delete_node` operations (one from `diffChildren`'s
delete phase, one from the duplicate top-level pass of `generateScenePatch`),
and with `detect_renames` a rename-matched root child is still deleted by
the top-level pass (at its stale pre-rename path). -/
theorem delete_phase_duplicated_at_root :
    (generateScenePatch snapRootX [.mk "Y" (some "Node") [] none]
        ⟨true, true, false, false⟩).operations =
        [.create_node (some "/root") (some "Node") "Y" (some []) (some true),
          .delete_node "/root/X", .delete_node "/root/X"] ∧
      (generateScenePatch snapRootOld [.mk "NewName" (some "Node2D") [] none]
          ⟨true, true, true, false⟩).operations =
        [.rename_node "/root/OldName" "NewName", .delete_node "/root/OldName"] := by
  exact ⟨rfl, rfl⟩

/-! ### C2 — strict rollback versus lenient partial application -/

/-- C2: for any batch of three operations that queue successfully followed
by one that fails validation, the transactional applicator applies zero
operations under `strict=true` (the transaction is never committed and the
tree is unchanged), while under `strict=false` it applies exactly the three
valid operations and reports exactly the one error. -/
theorem strict_rollback_three_valid_one_invalid (env : ApplyEnv) (root : GNode)
    (nref : Nat) (o1 o2 o3 o4 : ScenePatchOperation) (a1 a2 a3 : QueuedAction)
    (n1 n2 n3 : Nat) (e : String)
    (h1 : queuePatchOperation env root nref o1 = .ok (a1, n1))
    (h2 : queuePatchOperation env root n1 o2 = .ok (a2, n2))
    (h3 : queuePatchOperation env root n2 o3 = .ok (a3, n3))
    (h4 : queuePatchOperation env root n3 o4 = .error e) :
    (applyScenePatch env true root nref [o1, o2, o3, o4] true).result.applied = 0 ∧
      (applyScenePatch env true root nref [o1, o2, o3, o4] true).tree = root ∧
      (applyScenePatch env true root nref [o1, o2, o3, o4] false).result.applied = 3 ∧
      (applyScenePatch env true root nref [o1, o2, o3, o4] false).result.errors = [e] := by
  refine ⟨?_, ?_, ?_, ?_⟩ <;>
    simp [applyScenePatch, queueLoop, h1, h2, h3, h4]

/-- Witness for the strict-rollback theorem: three valid operations (two
creates and a property set) followed by an invalid root deletion, on an
empty root with the permissive environment. -/
theorem strict_rollback_three_valid_one_invalid_witness :
    (applyScenePatch envAll true liveRootEmpty 1
        [.create_node (some "/root") (some "Node") "A" (some []) (some true),
          .create_node (some "/root") (some "Node") "B" (some []) (some true),
          .set_property "/root" "x" (.vnum 1), .delete_node "/root"] true).result.applied = 0 ∧
      (applyScenePatch envAll true liveRootEmpty 1
          [.create_node (some "/root") (some "Node") "A" (some []) (some true),
            .create_node (some "/root") (some "Node") "B" (some []) (some true),
            .set_property "/root" "x" (.vnum 1), .delete_node "/root"] true).tree =
        liveRootEmpty ∧
      (applyScenePatch envAll true liveRootEmpty 1
          [.create_node (some "/root") (some "Node") "A" (some []) (some true),
            .create_node (some "/root") (some "Node") "B" (some []) (some true),
            .set_property "/root" "x" (.vnum 1), .delete_node "/root"] false).result.applied =
        3 ∧
      (applyScenePatch envAll true liveRootEmpty 1
          [.create_node (some "/root") (some "Node") "A" (some []) (some true),
            .create_node (some "/root") (some "Node") "B" (some []) (some true),
            .set_property "/root" "x" (.vnum 1), .delete_node "/root"] false).result.errors =
        ["delete_node: cannot delete root node"] :=
  strict_rollback_three_valid_one_invalid envAll liveRootEmpty 1 _ _ _ _
    (.qadd 0 (.mk 1 "A" "Node" [] [])) (.qadd 0 (.mk 2 "B" "Node" [] []))
    (.qsetprop 0 "x" (.vnum 1)) 2 3 3 "delete_node: cannot delete root node"
    rfl rfl rfl rfl

/-! ### C5 and C10 — the identity resolver's map maintenance -/

/-- C5: the resolver translates id-addressed operations in order and updates
its `id -> path` map immediately after a rename or reparent. For an id bound
to `/root/Player`, renaming it to `Hero` rebinds it to `/root/Hero`, the
following reparent to `/root/UI` rebinds it to `/root/UI/Hero`, and any
subsequent id-addressed operation resolves to `/root/UI/Hero`. -/
theorem resolver_updates_map_after_rename_and_reparent (m : List (String × String))
    (i : String) (hi : i ≠ "") (hm : mapGet i m = some "/root/Player") :
    resolveStep m (.rename_node none (some i) "Hero") =
        .ok (.rename_node "/root/Player" "Hero", mapSet i "/root/Hero" m) ∧
      resolveStep (mapSet i "/root/Hero" m)
          (.reparent_node none (some i) (some "/root/UI") none none none) =
        .ok (.reparent_node "/root/Hero" "/root/UI" none none,
          mapSet i "/root/UI/Hero" (mapSet i "/root/Hero" m)) ∧
      mapGet i (mapSet i "/root/UI/Hero" (mapSet i "/root/Hero" m)) = some "/root/UI/Hero" ∧
      (∀ property value,
        resolveStep (mapSet i "/root/UI/Hero" (mapSet i "/root/Hero" m))
            (.set_property none (some i) property value) =
          .ok (.set_property "/root/UI/Hero" property value,
            mapSet i "/root/UI/Hero" (mapSet i "/root/Hero" m))) := by
  have h1 : mapGet i (mapSet i "/root/Hero" m) = some "/root/Hero" :=
    mapGet_mapSet_self i "/root/Hero" m
  have h2 : mapGet i (mapSet i "/root/UI/Hero" (mapSet i "/root/Hero" m)) =
      some "/root/UI/Hero" :=
    mapGet_mapSet_self i "/root/UI/Hero" (mapSet i "/root/Hero" m)
  refine ⟨?_, ?_, h2, ?_⟩
  · simp [resolveStep, truthy, hi, resolveIdToPath, hm]
    rfl
  · simp [resolveStep, truthy, hi, resolveIdToPath, h1]
    rfl
  · intro property value
    simp [resolveStep, truthy, hi, resolveIdToPath, h2]

/-- Witness for the resolver-update theorem, at the concrete map binding
`p` to `/root/Player`. -/
theorem resolver_updates_map_witness :
    resolveStep [("p", "/root/Player")] (.rename_node none (some "p") "Hero") =
        .ok (.rename_node "/root/Player" "Hero",
          mapSet "p" "/root/Hero" [("p", "/root/Player")]) ∧
      resolveStep (mapSet "p" "/root/Hero" [("p", "/root/Player")])
          (.reparent_node none (some "p") (some "/root/UI") none none none) =
        .ok (.reparent_node "/root/Hero" "/root/UI" none none,
          mapSet "p" "/root/UI/Hero" (mapSet "p" "/root/Hero" [("p", "/root/Player")])) ∧
      mapGet "p" (mapSet "p" "/root/UI/Hero" (mapSet "p" "/root/Hero" [("p", "/root/Player")]))
        = some "/root/UI/Hero" ∧
      (∀ property value,
        resolveStep
            (mapSet "p" "/root/UI/Hero" (mapSet "p" "/root/Hero" [("p", "/root/Player")]))
            (.set_property none (some "p") property value) =
          .ok (.set_property "/root/UI/Hero" property value,
            mapSet "p" "/root/UI/Hero" (mapSet "p" "/root/Hero" [("p", "/root/Player")]))) :=
  resolver_updates_map_after_rename_and_reparent [("p", "/root/Player")] "p" (by decide) rfl

/-- C10: a `rename_node` or `reparent_node` addressed only by `node_path`
leaves the resolver's `id -> path` map untouched, so a later operation in
the same batch addressing the same node by `node_id` resolves to the stale
pre-rename path `p`. -/
theorem path_only_rename_leaves_id_map_stale (m : List (String × String)) (p i : String)
    (hi : i ≠ "") (hm : mapGet i m = some p) :
    (∀ newName, resolveStep m (.rename_node (some p) none newName) =
        .ok (.rename_node p newName, m)) ∧
      (∀ npp keep idx,
        resolveStep m (.reparent_node (some p) none (some npp) none keep idx) =
          .ok (.reparent_node p npp keep idx, m)) ∧
      (∀ property value, resolveStep m (.set_property none (some i) property value) =
        .ok (.set_property p property value, m)) := by
  refine ⟨?_, ?_, ?_⟩
  · intro newName
    simp [resolveStep, truthy]
  · intro npp keep idx
    simp [resolveStep, truthy]
  · intro property value
    simp [resolveStep, truthy, hi, resolveIdToPath, hm]

/-- Witness for the stale-map theorem: after a path-only rename of
`/root/Player` to `Hero`, a subsequent id-addressed `set_property` still
resolves to `/root/Player`. -/
theorem path_only_rename_stale_witness :
    (∀ newName, resolveStep [("p", "/root/Player")]
        (.rename_node (some "/root/Player") none newName) =
        .ok (.rename_node "/root/Player" newName, [("p", "/root/Player")])) ∧
      (∀ npp keep idx,
        resolveStep [("p", "/root/Player")]
            (.reparent_node (some "/root/Player") none (some npp) none keep idx) =
          .ok (.reparent_node "/root/Player" npp keep idx, [("p", "/root/Player")])) ∧
      (∀ property value,
        resolveStep [("p", "/root/Player")] (.set_property none (some "p") property value) =
          .ok (.set_property "/root/Player" property value, [("p", "/root/Player")])) :=
  path_only_rename_leaves_id_map_stale [("p", "/root/Player")] "/root/Player" "p"
    (by decide) rfl

/-! ### C9 — what the apply response carries -/

/-- C9 counterexample: in strict mode with an error, the response of
`_apply_scene_patch` is `_send_error` with only the first error message — it
is not the success record, so it carries neither the applied count nor the
full error list. Concretely, a strict batch whose only operation tries to
delete the root yields a bare error response. -/
theorem strict_error_response_is_bare_error :
    (applyScenePatch envAll true liveRootEmpty 1 [.delete_node "/root"] true).response =
        .error "delete_node: cannot delete root node" ∧
      ∀ r, (applyScenePatch envAll true liveRootEmpty 1 [.delete_node "/root"]
        true).response ≠ .success r := by
  refine ⟨rfl, ?_⟩
  intro r h
  exact ApplyResponse.noConfusion h

/-- Helper: the response of `_apply_scene_patch` on a non-empty batch is the
first error when `strict` saw any error, else the success record. -/
theorem applyScenePatch_response_eq (env : ApplyEnv) (hasUndoRedo : Bool) (root : GNode)
    (nref : Nat) (ops : List ScenePatchOperation) (strict : Bool) (hne : ops ≠ []) :
    (applyScenePatch env hasUndoRedo root nref ops strict).response =
      (if strict && !((applyScenePatch env hasUndoRedo root nref ops strict).result.errors
          ).isEmpty then
        ApplyResponse.error
          (((applyScenePatch env hasUndoRedo root nref ops strict).result.errors).headD "")
      else .success (applyScenePatch env hasUndoRedo root nref ops strict).result) := by
  obtain ⟨o, os, rfl⟩ : ∃ o os, ops = o :: os := by
    cases ops with
    | nil => exact absurd rfl hne
    | cons o os => exact ⟨o, os, rfl⟩
  cases hasUndoRedo with
  | true =>
      rcases hq : queueLoop env root strict (o :: os) nref with ⟨queued, E, acts, nref2⟩
      by_cases hc : (strict && !E.isEmpty) = true
      · simp [applyScenePatch, hq, hc]
      · simp [applyScenePatch, hq, hc]
  | false =>
      rcases hq : immediateLoop env strict (o :: os) root nref with ⟨applied, E, root2, nref2⟩
      by_cases hc : (strict && !E.isEmpty) = true
      · simp [applyScenePatch, hq, hc]
      · simp [applyScenePatch, hq, hc]

/-- C9 amended: in lenient mode, and in strict mode when no error occurred,
the response is the success record carrying both the applied count and the
full error list; in strict mode with errors, the response is an error
carrying only the first error message. -/
theorem response_carries_errors_and_applied (env : ApplyEnv) (hasUndoRedo : Bool)
    (root : GNode) (nref : Nat) (ops : List ScenePatchOperation) (strict : Bool)
    (hne : ops ≠ []) :
    ((applyScenePatch env hasUndoRedo root nref ops strict).result.errors = [] ∨
        strict = false →
      (applyScenePatch env hasUndoRedo root nref ops strict).response =
        .success (applyScenePatch env hasUndoRedo root nref ops strict).result) ∧
      (strict = true →
        (applyScenePatch env hasUndoRedo root nref ops strict).result.errors ≠ [] →
        (applyScenePatch env hasUndoRedo root nref ops strict).response =
          .error
            (((applyScenePatch env hasUndoRedo root nref ops strict).result.errors).headD
              "")) := by
  have key := applyScenePatch_response_eq env hasUndoRedo root nref ops strict hne
  constructor
  · intro h
    rw [key]
    rcases h with h | h
    · simp [h]
    · simp [h]
  · intro hs hne2
    rw [key]
    rw [if_pos]
    rw [Bool.and_eq_true]
    refine ⟨hs, ?_⟩
    cases hE : (applyScenePatch env hasUndoRedo root nref ops strict).result.errors with
    | nil => exact absurd hE hne2
    | cons e es => simp

/-- Witness for the amended response theorem: a lenient batch with one
failing operation still answers with the success record carrying the error
list and the applied count. -/
theorem response_carries_errors_and_applied_witness :
    ((applyScenePatch envAll true liveRootEmpty 1 [.delete_node "/root"] false).result.errors
          = [] ∨ false = false →
      (applyScenePatch envAll true liveRootEmpty 1 [.delete_node "/root"] false).response =
        .success (applyScenePatch envAll true liveRootEmpty 1 [.delete_node "/root"]
          false).result) ∧
      (false = true →
        (applyScenePatch envAll true liveRootEmpty 1 [.delete_node "/root"]
          false).result.errors ≠ [] →
        (applyScenePatch envAll true liveRootEmpty 1 [.delete_node "/root"] false).response =
          .error
            (((applyScenePatch envAll true liveRootEmpty 1 [.delete_node "/root"]
              false).result.errors).headD "")) :=
  response_carries_errors_and_applied envAll true liveRootEmpty 1 [.delete_node "/root"]
    false (by simp)

/-! ### C7 — the reorder phase -/

/-- On a duplicate-free order, `buildIndex` lookup agrees with the first
index of the name in the order. -/
theorem mapGet_foldl_enumFrom (l : List String) (hnd : l.Nodup) (n : String) :
    ∀ (k : Nat) (m0 : List (String × Nat)),
      mapGet n ((l.enumFrom k).foldl (fun m p => mapSet p.2 p.1 m) m0) =
        (match l.findIdx? (fun x => x = n) k with
          | some j => some j
          | none => mapGet n m0) := by
  induction l with
  | nil => intro k m0; simp [mapGet]
  | cons a l ih =>
      intro k m0
      rw [List.enumFrom_cons]
      have htail := ih hnd.of_cons (k + 1) (mapSet a k m0)
      simp only [List.foldl_cons] at htail ⊢
      rw [htail, List.findIdx?_cons]
      by_cases ha : a = n
      · subst ha
        have hnone : l.findIdx? (fun x => x = a) (k + 1) = none := by
          rw [List.findIdx?_start_succ]
          have : l.findIdx? (fun x => x = a) = none :=
            List.findIdx?_eq_none_iff.mpr (fun x hx => by
              simp only [decide_eq_false_iff_not]
              intro hxa
              exact (List.nodup_cons.mp hnd).1 (hxa ▸ hx))
          rw [this]
          rfl
        rw [hnone]
        simp [mapGet_mapSet_self]
      · have hpa : (decide (a = n)) = false := by simp [ha]
        rw [hpa]
        simp only [Bool.false_eq_true, if_false]
        cases hfi : l.findIdx? (fun x => x = n) (k + 1) with
        | some j => simp
        | none => simp [mapGet_mapSet_other a n k m0 (fun h => ha h.symm)]

/-- `buildIndex` lookup on a duplicate-free order is the index of the name
in the order. -/
theorem mapGet_buildIndex (order : List String) (hnd : order.Nodup) (n : String) :
    mapGet n (buildIndex order) = order.findIdx? (fun x => x = n) := by
  have h := mapGet_foldl_enumFrom order hnd n 0 []
  rw [buildIndex, List.enum]
  rw [h]
  cases order.findIdx? (fun x => x = n) 0 <;> simp [mapGet]

/-- A fold that either skips an element or appends one operation is the
mapped filter of the kept elements. -/
theorem foldl_guard_append {α β : Type} (c : α → Prop) [DecidablePred c] (g : α → β) :
    ∀ (l : List α) (acc : List β),
      l.foldl (fun ops p => if c p then ops else ops ++ [g p]) acc =
        acc ++ (l.filter (fun p => decide ¬ c p)).map g := by
  intro l
  induction l with
  | nil => intro acc; simp
  | cons a l ih =>
      intro acc
      by_cases hc : c a
      · simp [hc, ih]
      · simp [hc, ih]

/-- C7 amended: with at least two desired children, the reorder phase emits,
in desired order, exactly one indexed `reparent_node` for each desired child
whose index in the (alias-corrected, duplicate-free) live child order
differs from its desired index, and none for a child already in place; with
at most one desired child the reorder phase emits nothing at all (the
`desiredOrder.length > 1` guard). -/
theorem reorder_emits_exactly_out_of_place (parentPath : String)
    (aliases : List (String × String)) (existingChildren : List SceneTreeNode)
    (desiredOrder : List String) (h2 : 1 < desiredOrder.length)
    (hnd : (existingChildren.map (aliasedName parentPath aliases)).Nodup) :
    reorderOps parentPath aliases existingChildren desiredOrder =
        (desiredOrder.enum.filter (fun p =>
            (existingChildren.map (aliasedName parentPath aliases)).findIdx?
                (fun x => x = p.2) ≠ some p.1)).map
          (fun p => .reparent_node (parentPath ++ "/" ++ p.2) parentPath (some false)
            (some (p.1 : Int))) ∧
      ∀ ds : List String, ds.length ≤ 1 →
        reorderOps parentPath aliases existingChildren ds = [] := by
  constructor
  · rw [reorderOps, if_pos h2]
    rw [foldl_guard_append
      (fun p : Nat × String =>
        mapGet p.2 (buildIndex (existingChildren.map (aliasedName parentPath aliases))) =
          some p.1)
      (fun p : Nat × String => ScenePatchOperation.reparent_node (parentPath ++ "/" ++ p.2)
        parentPath (some false) (some (p.1 : Int)))]
    rw [List.nil_append]
    congr 1
    apply List.filter_congr
    intro p _
    rw [mapGet_buildIndex _ hnd]
  · intro ds hds
    rw [reorderOps, if_neg (by omega)]

/-- Witness for the reorder characterization, at the live order `[B, A]`
against desired `[A, B]`: both children are out of place and get indexed
reparents, and a singleton desired list yields no reorder operation. -/
theorem reorder_emits_exactly_out_of_place_witness :
    reorderOps "/root" []
        [SceneTreeNode.mk none "B" "Node" "/root/B" [],
          SceneTreeNode.mk none "A" "Node" "/root/A" []] ["A", "B"] =
      [.reparent_node "/root/A" "/root" (some false) (some 0),
        .reparent_node "/root/B" "/root" (some false) (some 1)] ∧
      reorderOps "/root" []
        [SceneTreeNode.mk none "B" "Node" "/root/B" [],
          SceneTreeNode.mk none "A" "Node" "/root/A" []] ["X"] = [] := by
  have h := reorder_emits_exactly_out_of_place "/root" []
    [SceneTreeNode.mk none "B" "Node" "/root/B" [],
      SceneTreeNode.mk none "A" "Node" "/root/A" []] ["A", "B"] (by decide) (by decide)
  exact ⟨h.1.trans (by rfl), h.2 ["X"] (by decide)⟩

/-- C7 counterexample: with `reorder_children` set but only one desired
child, the differ emits no `reparent_node` even though the desired child's
live index (1) differs from its desired index (0) — the
`desiredOrder.length > 1` guard suppresses the move, contradicting the
claim taken over every desired list. -/
theorem reorder_single_child_not_moved :
    (generateScenePatch
          (.mk none "Root" "Node" "/root"
            [.mk none "B" "Node" "/root/B" [], .mk none "A" "Node" "/root/A" []])
          [.mk "A" (some "Node") [] none] ⟨false, true, false, true⟩).operations = [] ∧
      (generateScenePatch
          (.mk none "Root" "Node" "/root"
            [.mk none "B" "Node" "/root/B" [], .mk none "A" "Node" "/root/A" []])
          [.mk "A" (some "Node") [] none] ⟨false, true, false, true⟩).aliases = [] ∧
      (([SceneTreeNode.mk none "B" "Node" "/root/B" [],
          SceneTreeNode.mk none "A" "Node" "/root/A" []].map
        (aliasedName "/root" [])).findIdx? (fun x => x = "A")) = some 1 := by
  refine ⟨rfl, rfl, rfl⟩

/-! ### C4 — rename detection requires a unique candidate -/

/-- C4: with no direct name match, rename matching is fully characterized:
it does nothing when `detect_renames` is off, when the desired child has no
type, or when the candidate set (unmatched, unclaimed, same type, compatible
child count) does not have exactly one element; with exactly one candidate
it emits the one `rename_node` and records the alias. In particular, two
distinct candidates — e.g. two unmatched live siblings of the same type and
child count — mean no rename is emitted for either. -/
theorem rename_only_with_unique_candidate (detectRenames : Bool)
    (existingChildren : List SceneTreeNode) (parentPath : String)
    (desiredByName : List (String × DesiredSceneNode)) (d : DesiredSceneNode)
    (ls : LoopState) (acc : DiffAcc)
    (hdirect : mapGet d.name ls.existingByName = none) :
    (detectRenames = false →
      resolveExistingForDesired detectRenames existingChildren parentPath desiredByName d ls
        acc = (none, ls, acc)) ∧
      (d.type? = none →
        resolveExistingForDesired detectRenames existingChildren parentPath desiredByName d ls
          acc = (none, ls, acc)) ∧
      (∀ t : String, d.type? = some t →
        (renameCandidates existingChildren desiredByName d t ls).length ≠ 1 →
        resolveExistingForDesired detectRenames existingChildren parentPath desiredByName d ls
          acc = (none, ls, acc)) ∧
      (∀ (t : String) (ex : SceneTreeNode), d.type? = some t → detectRenames = true →
        renameCandidates existingChildren desiredByName d t ls = [ex] →
        resolveExistingForDesired detectRenames existingChildren parentPath desiredByName d ls
          acc =
          (some (renameSubtree ex (parentPath ++ "/" ++ ex.name) (parentPath ++ "/" ++ d.name)
              d.name),
            ⟨ex.name :: ls.matchedExistingNames, ex.name :: ls.usedForRename,
              mapSet d.name
                (renameSubtree ex (parentPath ++ "/" ++ ex.name) (parentPath ++ "/" ++ d.name)
                  d.name) ls.existingByName⟩,
            ⟨acc.operations ++ [.rename_node (parentPath ++ "/" ++ ex.name) d.name],
              acc.errors,
              mapSet (parentPath ++ "/" ++ ex.name) (parentPath ++ "/" ++ d.name)
                acc.aliases⟩)) ∧
      (∀ (t : String) (x y : SceneTreeNode), d.type? = some t →
        x ∈ renameCandidates existingChildren desiredByName d t ls →
        y ∈ renameCandidates existingChildren desiredByName d t ls → x.name ≠ y.name →
        resolveExistingForDesired detectRenames existingChildren parentPath desiredByName d ls
          acc = (none, ls, acc)) := by
  have lenNe : ∀ (t : String) (x y : SceneTreeNode),
      x ∈ renameCandidates existingChildren desiredByName d t ls →
      y ∈ renameCandidates existingChildren desiredByName d t ls → x.name ≠ y.name →
      (renameCandidates existingChildren desiredByName d t ls).length ≠ 1 := by
    intro t x y hx hy hxy hlen
    obtain ⟨a, ha⟩ := List.length_eq_one.mp hlen
    rw [ha] at hx hy
    simp only [List.mem_singleton] at hx hy
    exact hxy (hx ▸ hy ▸ rfl)
  have third : ∀ t : String, d.type? = some t →
      (renameCandidates existingChildren desiredByName d t ls).length ≠ 1 →
      resolveExistingForDesired detectRenames existingChildren parentPath desiredByName d ls
        acc = (none, ls, acc) := by
    intro t ht hlen
    cases detectRenames with
    | false => simp [resolveExistingForDesired, hdirect]
    | true =>
        rcases hc : renameCandidates existingChildren desiredByName d t ls with
          _ | ⟨ex1, _ | ⟨ex2, r⟩⟩
        · simp [resolveExistingForDesired, hdirect, ht, hc]
        · exact absurd (by rw [hc]; rfl) hlen
        · simp [resolveExistingForDesired, hdirect, ht, hc]
  refine ⟨?_, ?_, third, ?_, ?_⟩
  · intro h
    subst h
    simp [resolveExistingForDesired, hdirect]
  · intro h
    cases detectRenames with
    | false => simp [resolveExistingForDesired, hdirect]
    | true => simp [resolveExistingForDesired, hdirect, h]
  · intro t ex ht hdet hc
    subst hdet
    simp [resolveExistingForDesired, hdirect, ht, hc]
  · intro t x y ht hx hy hxy
    exact third t ht (lenNe t x y hx hy hxy)

/-- Witness for the unique-candidate theorem: two unmatched live siblings
`X` and `Y` of the same type `T` and child count leave the desired child
`New` unmatched — no rename is emitted for either. -/
theorem rename_only_with_unique_candidate_witness :
    resolveExistingForDesired true
        [SceneTreeNode.mk none "X" "T" "/root/X" [], SceneTreeNode.mk none "Y" "T" "/root/Y" []]
        "/root" [] (.mk "New" (some "T") [] none) ⟨[], [], []⟩ ⟨[], [], []⟩ =
      (none, ⟨[], [], []⟩, ⟨[], [], []⟩) := by
  have h := (rename_only_with_unique_candidate true
    [SceneTreeNode.mk none "X" "T" "/root/X" [], SceneTreeNode.mk none "Y" "T" "/root/Y" []]
    "/root" [] (.mk "New" (some "T") [] none) ⟨[], [], []⟩ ⟨[], [], []⟩ rfl).2.2.2.2
  refine h "T" (SceneTreeNode.mk none "X" "T" "/root/X" [])
    (SceneTreeNode.mk none "Y" "T" "/root/Y" []) rfl ?_ ?_ (by decide)
  · rw [show renameCandidates
        [SceneTreeNode.mk none "X" "T" "/root/X" [], SceneTreeNode.mk none "Y" "T" "/root/Y" []]
        [] (.mk "New" (some "T") [] none) "T" ⟨[], [], []⟩ =
        [SceneTreeNode.mk none "X" "T" "/root/X" [],
          SceneTreeNode.mk none "Y" "T" "/root/Y" []] from rfl]
    exact List.mem_cons_self _ _
  · rw [show renameCandidates
        [SceneTreeNode.mk none "X" "T" "/root/X" [], SceneTreeNode.mk none "Y" "T" "/root/Y" []]
        [] (.mk "New" (some "T") [] none) "T" ⟨[], [], []⟩ =
        [SceneTreeNode.mk none "X" "T" "/root/X" [],
          SceneTreeNode.mk none "Y" "T" "/root/Y" []] from rfl]
    exact List.mem_cons_of_mem _ (List.mem_cons_self _ _)

/-! ### C6 — idempotence of the differ -/

/-- The name of a node's desired form is the node's name. -/
theorem toDesired_name (c : SceneTreeNode) : (toDesired c).name = c.name := by
  cases c
  rfl

/-- The type of a node's desired form is the node's type. -/
theorem toDesired_type? (c : SceneTreeNode) : (toDesired c).type? = some c.type := by
  cases c
  rfl

/-- A node's desired form requests no properties. -/
theorem toDesired_properties (c : SceneTreeNode) : (toDesired c).properties = [] := by
  cases c
  rfl

/-- The children of a node's desired form are the desired forms of its
children. -/
theorem toDesired_childrenList (c : SceneTreeNode) :
    (toDesired c).childrenList = toDesiredList c.children := by
  cases c
  rfl

/-- `toDesiredList` preserves the name sequence. -/
theorem toDesiredList_names (cs : List SceneTreeNode) :
    (toDesiredList cs).map DesiredSceneNode.name = cs.map SceneTreeNode.name := by
  induction cs with
  | nil => rfl
  | cons c rest ih => simp [toDesiredList, toDesired_name, ih]

/-- `toDesired` membership transfers along `toDesiredList`. -/
theorem toDesired_mem {c : SceneTreeNode} {cs : List SceneTreeNode} (hc : c ∈ cs) :
    toDesired c ∈ toDesiredList cs := by
  induction cs with
  | nil => cases hc
  | cons a rest ih =>
      rcases List.mem_cons.mp hc with h | h
      · subst h
        exact List.mem_cons_self _ _
      · exact List.mem_cons_of_mem _ (ih h)

/-- Folding keyed inserts over entries whose key is absent leaves a lookup
unchanged. -/
theorem mapGet_keyed_foldl_preserve {α : Type} (key : α → String) (k : String) :
    ∀ (cs : List α) (m : List (String × α)), k ∉ cs.map key →
      mapGet k (cs.foldl (fun m x => mapSet (key x) x m) m) = mapGet k m := by
  intro cs
  induction cs with
  | nil => intro m _; rfl
  | cons a rest ih =>
      intro m hk
      simp only [List.map_cons, List.mem_cons, not_or] at hk
      simp only [List.foldl_cons]
      rw [ih _ hk.2]
      exact mapGet_mapSet_other (key a) k a m hk.1

/-- With duplicate-free keys, a keyed fold maps each element's key to the
element (the `Map`-building idiom of `childMap` and `desiredChildMap`). -/
theorem mapGet_keyed_foldl {α : Type} (key : α → String) (cs : List α)
    (hnd : (cs.map key).Nodup) (c : α) (hc : c ∈ cs) :
    ∀ m0 : List (String × α),
      mapGet (key c) (cs.foldl (fun m x => mapSet (key x) x m) m0) = some c := by
  induction cs with
  | nil => cases hc
  | cons a rest ih =>
      intro m0
      simp only [List.foldl_cons]
      rcases List.mem_cons.mp hc with h | h
      · subst h
        rw [mapGet_keyed_foldl_preserve key (key c) rest _ (by
          simpa using (List.nodup_cons.mp hnd).1)]
        exact mapGet_mapSet_self _ _ _
      · exact ih (List.nodup_cons.mp hnd).2 h _

/-- `childMap` finds every child by name when sibling names are unique. -/
theorem childMap_get (t : SceneTreeNode) (hnd : (t.children.map SceneTreeNode.name).Nodup)
    (c : SceneTreeNode) (hc : c ∈ t.children) : mapGet c.name (childMap t) = some c :=
  mapGet_keyed_foldl SceneTreeNode.name t.children hnd c hc []

/-- `wfTree` gives unique sibling names and well-formed children. -/
theorem wfTree_destruct {t : SceneTreeNode} (h : wfTree t = true) :
    (t.children.map SceneTreeNode.name).Nodup ∧ wfTreeList t.children = true := by
  cases t with
  | mk i n ty p cs =>
      simp only [wfTree, Bool.and_eq_true, decide_eq_true_eq] at h
      exact ⟨h.1, h.2⟩

/-- Members of a well-formed child list are well-formed. -/
theorem wfTreeList_mem {cs : List SceneTreeNode} (h : wfTreeList cs = true)
    {c : SceneTreeNode} (hc : c ∈ cs) : wfTree c = true := by
  induction cs with
  | nil => cases hc
  | cons a rest ih =>
      simp only [wfTreeList, Bool.and_eq_true] at h
      rcases List.mem_cons.mp hc with hh | hh
      · exact hh ▸ h.1
      · exact ih h.2 hh

/-- With no aliases recorded, a child's aliased name is its own name. -/
theorem aliasedName_nil (p : String) (c : SceneTreeNode) : aliasedName p [] c = c.name := rfl

/-- The reorder phase emits nothing when the desired order equals the
(unaliased) live order and names are unique. -/
theorem reorderOps_id (p : String) (cs : List SceneTreeNode)
    (hnd : (cs.map SceneTreeNode.name).Nodup) :
    reorderOps p [] cs (cs.map SceneTreeNode.name) = [] := by
  by_cases h2 : 1 < (cs.map SceneTreeNode.name).length
  · rw [reorderOps, if_pos h2]
    have hcur : cs.map (aliasedName p []) = cs.map SceneTreeNode.name :=
      List.map_congr_left (fun c _ => aliasedName_nil p c)
    rw [foldl_guard_append
      (fun q : Nat × String =>
        mapGet q.2 (buildIndex (cs.map (aliasedName p []))) = some q.1)
      (fun q : Nat × String => ScenePatchOperation.reparent_node (p ++ "/" ++ q.2) p
        (some false) (some (q.1 : Int)))]
    rw [List.nil_append, List.map_eq_nil_iff, List.filter_eq_nil_iff]
    intro q hq
    simp only [decide_not, Bool.not_eq_true', Bool.not_eq_false, decide_eq_true_eq]
    rw [hcur, mapGet_buildIndex _ hnd]
    obtain ⟨i, x⟩ := q
    have hx : (cs.map SceneTreeNode.name)[i]? = some x :=
      List.mk_mem_enum_iff_getElem?.mp hq
    have hi : i < (cs.map SceneTreeNode.name).length := by
      exact List.getElem?_eq_some_iff.mp hx |>.1
    rw [List.findIdx?_eq_some_iff_getElem]
    refine ⟨hi, ?_, ?_⟩
    · have : (cs.map SceneTreeNode.name)[i] = x := by
        have := List.getElem?_eq_some_iff.mp hx
        obtain ⟨h, hh⟩ := this
        exact hh
      simp [this]
    · intro j hji
      have hji2 : j < (cs.map SceneTreeNode.name).length := Nat.lt_trans hji hi
      simp only [decide_eq_true_eq]
      intro hEq
      have hx2 : (cs.map SceneTreeNode.name)[i] = x :=
        (List.getElem?_eq_some_iff.mp hx).2
      have : j = i := by
        have := (List.Nodup.getElem_inj_iff hnd).mp (hEq.trans hx2.symm)
        exact this
      omega
  · rw [reorderOps, if_neg h2]

/-- The delete phase emits nothing when every existing child was matched. -/
theorem deletePhase_all_matched (ad : Bool) (matched : List String)
    (dbn : List (String × DesiredSceneNode)) (cs : List SceneTreeNode)
    (h : ∀ c ∈ cs, matched.contains c.name = true) : deletePhase ad matched dbn cs = [] := by
  have aux : ∀ (l : List SceneTreeNode) (acc : List ScenePatchOperation),
      (∀ c ∈ l, matched.contains c.name = true) →
      l.foldl (fun ops c =>
        if matched.contains c.name then ops
        else if (mapGet c.name dbn).isSome then ops
        else ops ++ emitDeletes c) acc = acc := by
    intro l
    induction l with
    | nil => intro acc _; rfl
    | cons a rest ih =>
        intro acc hl
        simp only [List.foldl_cons, hl a (List.mem_cons_self a rest), if_true]
        exact ih acc (fun c hc => hl c (List.mem_cons_of_mem a hc))
  cases ad with
  | false => rfl
  | true => exact aux cs [] h

/-- Direct-name matching in `resolveExistingForDesired`. -/
theorem resolveExisting_direct (det : Bool) (cs0 : List SceneTreeNode) (p : String)
    (dbn : List (String × DesiredSceneNode)) (d : DesiredSceneNode) (ls : LoopState)
    (acc : DiffAcc) (c : SceneTreeNode) (h : mapGet d.name ls.existingByName = some c) :
    resolveExistingForDesired det cs0 p dbn d ls acc =
      (some c, ⟨c.name :: ls.matchedExistingNames, ls.usedForRename, ls.existingByName⟩,
        acc) := by
  simp [resolveExistingForDesired, h]

/-- Core induction for idempotence, by strong induction on a bound of the
desired size: diffing a well-formed tree against its own desired form
changes nothing (first part), and the matching loop over the desired forms
of children found by name merely accumulates their names (second part). -/
theorem diff_toDesired_aux : ∀ n : Nat,
    (∀ (o : GenerateScenePatchOptions) (t : SceneTreeNode) (p : String) (acc : DiffAcc)
      (fuel : Nat), wfTree t = true → acc.aliases = [] →
      DesiredSceneNode.sizeList (toDesiredList t.children) ≤ n →
      5 * DesiredSceneNode.sizeList (toDesiredList t.children) + 3 ≤ fuel →
      diffChildren fuel o t p (toDesiredList t.children) acc = acc) ∧
    (∀ (o : GenerateScenePatchOptions) (cs0 : List SceneTreeNode)
      (bn : List (String × SceneTreeNode)) (p : String)
      (dbn : List (String × DesiredSceneNode)) (cs : List SceneTreeNode)
      (m u : List String) (acc : DiffAcc) (fuel : Nat),
      (∀ c ∈ cs, mapGet c.name bn = some c ∧ wfTree c = true) →
      acc.aliases = [] →
      DesiredSceneNode.sizeList (toDesiredList cs) ≤ n →
      5 * DesiredSceneNode.sizeList (toDesiredList cs) + 2 ≤ fuel →
      diffLoop fuel o cs0 p dbn (toDesiredList cs) ⟨m, u, bn⟩ acc =
        (⟨(cs.map SceneTreeNode.name).reverse ++ m, u, bn⟩, acc)) := by
  intro n
  induction n using Nat.strong_induction_on with
  | _ n IH =>
      have part2 : ∀ (o : GenerateScenePatchOptions) (cs0 : List SceneTreeNode)
          (bn : List (String × SceneTreeNode)) (p : String)
          (dbn : List (String × DesiredSceneNode)) (cs : List SceneTreeNode)
          (m u : List String) (acc : DiffAcc) (fuel : Nat),
          (∀ c ∈ cs, mapGet c.name bn = some c ∧ wfTree c = true) →
          acc.aliases = [] →
          DesiredSceneNode.sizeList (toDesiredList cs) ≤ n →
          5 * DesiredSceneNode.sizeList (toDesiredList cs) + 2 ≤ fuel →
          diffLoop fuel o cs0 p dbn (toDesiredList cs) ⟨m, u, bn⟩ acc =
            (⟨(cs.map SceneTreeNode.name).reverse ++ m, u, bn⟩, acc) := by
        intro o cs0 bn p dbn cs m u acc fuel hsub hal hn hfuel
        cases fuel with
        | zero => exact absurd hfuel (by omega)
        | succ f =>
            cases cs with
            | nil => simp [toDesiredList, diffLoop]
            | cons c rest =>
                have hc := hsub c (List.mem_cons_self c rest)
                have hszc := DesiredSceneNode.size_eq (toDesired c)
                rw [toDesired_childrenList] at hszc
                simp only [toDesiredList, DesiredSceneNode.sizeList] at hn hfuel ⊢
                simp only [diffLoop]
                rw [resolveExisting_direct o.detect_renames cs0 p dbn (toDesired c)
                  ⟨m, u, bn⟩ acc c (by rw [toDesired_name]; exact hc.1)]
                dsimp only
                have hnode : diffNode f o c (p ++ "/" ++ (toDesired c).name) (toDesired c)
                    acc = acc := by
                  cases f with
                  | zero => omega
                  | succ f2 =>
                      simp only [diffNode, toDesired_type?, toDesired_properties,
                        List.foldl_nil]
                      have htt : (c.type ≠ c.type) = False := by simp
                      simp only [htt, if_false, Bool.false_and, if_false]
                      rw [toDesired_childrenList]
                      exact (IH (DesiredSceneNode.sizeList (toDesiredList c.children))
                          (by omega)).1 o c (p ++ "/" ++ (toDesired c).name) acc f2
                        hc.2 hal (le_refl _) (by omega)
                rw [hnode]
                have hrest := (IH (DesiredSceneNode.sizeList (toDesiredList rest))
                    (by omega)).2 o cs0 bn p dbn rest (c.name :: m) u acc f
                  (fun x hx => hsub x (List.mem_cons_of_mem c hx)) hal (le_refl _)
                  (by omega)
                rw [hrest]
                simp [List.append_assoc]
      have part1 : ∀ (o : GenerateScenePatchOptions) (t : SceneTreeNode) (p : String)
          (acc : DiffAcc) (fuel : Nat), wfTree t = true → acc.aliases = [] →
          DesiredSceneNode.sizeList (toDesiredList t.children) ≤ n →
          5 * DesiredSceneNode.sizeList (toDesiredList t.children) + 3 ≤ fuel →
          diffChildren fuel o t p (toDesiredList t.children) acc = acc := by
        intro o t p acc fuel hwf hal hn hfuel
        obtain ⟨hnd, hwfl⟩ := wfTree_destruct hwf
        obtain ⟨accOps, accErrs, accAls⟩ := acc
        dsimp only at hal
        subst hal
        cases fuel with
        | zero => omega
        | succ f =>
            have hloop := part2 o t.children (childMap t) p
              (desiredChildMap (toDesiredList t.children)) t.children [] []
              ⟨accOps, accErrs, []⟩ f
              (fun c hc => ⟨childMap_get t hnd c hc, wfTreeList_mem hwfl hc⟩) rfl hn
              (by omega)
            simp only [diffChildren]
            rw [hloop]
            have hnames := toDesiredList_names t.children
            have hreo : reorderOps p ([] : List (String × String)) t.children
                ((toDesiredList t.children).map DesiredSceneNode.name) = [] := by
              rw [hnames]
              exact reorderOps_id p t.children hnd
            have hdel : ∀ matched : List String,
                (∀ c ∈ t.children, matched.contains c.name = true) →
                deletePhase o.allow_delete matched
                  (desiredChildMap (toDesiredList t.children)) t.children = [] := by
              intro matched hm
              exact deletePhase_all_matched o.allow_delete matched _ t.children hm
            have hcontains : ∀ c ∈ t.children,
                ((t.children.map SceneTreeNode.name).reverse).contains c.name = true := by
              intro c hc
              have hmem : c.name ∈ (t.children.map SceneTreeNode.name).reverse := by
                simp only [List.mem_reverse]
                exact List.mem_map_of_mem SceneTreeNode.name hc
              exact List.elem_eq_true_of_mem hmem
            cases o.reorder_children with
            | true =>
                simp only [if_true, hreo, hdel _ hcontains, List.append_nil]
            | false =>
                simp only [Bool.false_eq_true, if_false, hdel _ hcontains, List.append_nil]
      exact ⟨part1, part2⟩

/-- Diffing a well-formed tree against its own desired form changes nothing,
for every option set, provided no aliases are pending and the fuel covers
the desired size. -/
theorem diffChildren_toDesired_eq (o : GenerateScenePatchOptions) (t : SceneTreeNode)
    (p : String) (acc : DiffAcc) (fuel : Nat) (hwf : wfTree t = true)
    (hal : acc.aliases = [])
    (hfuel : 5 * DesiredSceneNode.sizeList (toDesiredList t.children) + 3 ≤ fuel) :
    diffChildren fuel o t p (toDesiredList t.children) acc = acc :=
  (diff_toDesired_aux (DesiredSceneNode.sizeList (toDesiredList t.children))).1 o t p acc
    fuel hwf hal (le_refl _) hfuel

/-- C6: diffing a well-formed tree `T` against its own desired form yields
no operations and no errors (and no aliases), for every option set. -/
theorem diff_idempotent (T : SceneTreeNode) (hwf : wfTree T = true)
    (o : GenerateScenePatchOptions) :
    generateScenePatch T (toDesiredList T.children) o = ⟨[], [], []⟩ := by
  obtain ⟨hnd, _⟩ := wfTree_destruct hwf
  have hmain := diffChildren_toDesired_eq o T "/root" ⟨[], [], []⟩
    (5 * DesiredSceneNode.sizeList (toDesiredList T.children) + 5) hwf rfl (by omega)
  rw [generateScenePatch, hmain]
  have haux : ∀ (l : List SceneTreeNode) (acc : DiffAcc),
      (∀ c ∈ l, (mapGet c.name (desiredChildMap (toDesiredList T.children))).isSome = true) →
      l.foldl (fun a c =>
        if (mapGet c.name (desiredChildMap (toDesiredList T.children))).isSome then a
        else ⟨a.operations ++ emitDeletes c, a.errors, a.aliases⟩) acc = acc := by
    intro l
    induction l with
    | nil => intro acc _; rfl
    | cons a rest ih =>
        intro acc hl
        simp only [List.foldl_cons, hl a (List.mem_cons_self a rest), if_true]
        exact ih acc (fun c hc => hl c (List.mem_cons_of_mem a hc))
  have hmem : ∀ c ∈ T.children,
      (mapGet c.name (desiredChildMap (toDesiredList T.children))).isSome = true := by
    intro c hc
    have := mapGet_keyed_foldl DesiredSceneNode.name (toDesiredList T.children)
      (by rw [toDesiredList_names]; exact hnd) (toDesired c) (toDesired_mem hc) []
    rw [toDesired_name] at this
    rw [desiredChildMap, this]
    rfl
  cases had : o.allow_delete with
  | false => simp
  | true =>
      simp only [if_true]
      exact haux T.children ⟨[], [], []⟩ hmem

/-- Witness for the idempotence theorem, at a concrete two-level tree with
all options enabled. -/
theorem diff_idempotent_witness :
    generateScenePatch
        (.mk none "Root" "Node" "/root"
          [.mk none "A" "Node2D" "/root/A" [.mk none "C" "Node" "/root/A/C" []],
            .mk none "B" "Control" "/root/B" []])
        (toDesiredList
          [SceneTreeNode.mk none "A" "Node2D" "/root/A"
            [.mk none "C" "Node" "/root/A/C" []],
            SceneTreeNode.mk none "B" "Control" "/root/B" []])
        ⟨true, true, true, true⟩ = ⟨[], [], []⟩ :=
  diff_idempotent
    (.mk none "Root" "Node" "/root"
      [.mk none "A" "Node2D" "/root/A" [.mk none "C" "Node" "/root/A/C" []],
        .mk none "B" "Control" "/root/B" []])
    (by decide) ⟨true, true, true, true⟩

/-! ### C8 — the property filter's comparison

The filter compares `stableStringify` outputs; the claim compares values
under order-independent structural equality (`structEq`, equality of
canonical forms). The bridge is that the serialization is injective, proved
by the parser round-trip `parseVal (ssChars w ++ rest) = some (w, rest)`. -/

/-- A remainder that cannot extend a rendered number: empty or headed by a
non-digit. Every delimiter produced by the grammar (comma, brackets,
braces, end of input) qualifies. -/
def numOk : List Char → Bool
  | [] => true
  | c :: _ => !isDigitC c

/-- The digit character of `k < 10` carries exactly `k` and is a digit. -/
theorem digitChar_spec (k : Nat) (h : k < 10) :
    (digitChar k).toNat - 48 = k ∧ isDigitC (digitChar k) = true := by
  interval_cases k <;> exact (by decide)

/-- Rendered digit runs are nonempty (with positive fuel). -/
theorem natDigitsAux_ne_nil (fuel n : Nat) : natDigitsAux (fuel + 1) n ≠ [] := by
  rw [natDigitsAux]
  by_cases h : n < 10
  · simp [h]
  · simp [h]

/-- All characters of a rendered digit run are digits. -/
theorem natDigitsAux_digits : ∀ fuel n, ∀ c ∈ natDigitsAux fuel n, isDigitC c = true := by
  intro fuel
  induction fuel with
  | zero => intro n c hc; cases hc
  | succ f ih =>
      intro n c hc
      rw [natDigitsAux] at hc
      by_cases h : n < 10
      · rw [if_pos h] at hc
        rw [List.mem_singleton] at hc
        exact hc ▸ (digitChar_spec n h).2
      · rw [if_neg h] at hc
        rcases List.mem_append.mp hc with h2 | h2
        · exact ih (n / 10) c h2
        · rw [List.mem_singleton] at h2
          exact h2 ▸ (digitChar_spec (n % 10) (Nat.mod_lt _ (by omega))).2

/-- Folding the digit-accumulation step over a rendered run recovers the
number, provided the fuel covers it. -/
theorem foldl_natDigitsAux : ∀ fuel n, n < 10 ^ fuel →
    (natDigitsAux fuel n).foldl (fun a c => a * 10 + (c.toNat - 48)) 0 = n := by
  intro fuel
  induction fuel with
  | zero =>
      intro n h
      rw [natDigitsAux, List.foldl_nil]
      simp at h
      omega
  | succ f ih =>
      intro n h
      rw [natDigitsAux]
      by_cases h10 : n < 10
      · simp only [if_pos h10, List.foldl_cons, List.foldl_nil]
        rw [(digitChar_spec n h10).1]
        omega
      · simp only [if_neg h10, List.foldl_append, List.foldl_cons, List.foldl_nil]
        have hdiv : n / 10 < 10 ^ f := by
          rw [Nat.pow_succ'] at h
          exact Nat.div_lt_of_lt_mul h
        rw [ih (n / 10) hdiv, (digitChar_spec (n % 10) (Nat.mod_lt _ (by omega))).1]
        omega

/-- The decimal rendering of a number is nonempty and starts with a digit. -/
theorem natToChars_head (n : Nat) :
    ∃ c t, natToChars n = c :: t ∧ isDigitC c = true := by
  cases h : natToChars n with
  | nil => exact absurd h (natDigitsAux_ne_nil n n)
  | cons c t =>
      refine ⟨c, t, rfl, natDigitsAux_digits (n + 1) n c ?_⟩
      show c ∈ natToChars n
      rw [h]
      exact List.mem_cons_self c t

/-- Digit accumulation consumes exactly an all-digit prefix. -/
theorem parseNatAux_append (ds : List Char) (hd : ∀ c ∈ ds, isDigitC c = true) :
    ∀ (acc : Nat) (rest : List Char),
      parseNatAux acc (ds ++ rest) =
        parseNatAux (ds.foldl (fun a c => a * 10 + (c.toNat - 48)) acc) rest := by
  induction ds with
  | nil => intro acc rest; rfl
  | cons c t ih =>
      intro acc rest
      rw [List.cons_append, parseNatAux, if_pos (hd c (List.mem_cons_self c t)),
        List.foldl_cons]
      exact ih (fun x hx => hd x (List.mem_cons_of_mem c hx)) _ rest

/-- Digit accumulation stops at a non-digit (or at the end of input). -/
theorem parseNatAux_stop (acc : Nat) (rest : List Char) (hr : numOk rest = true) :
    parseNatAux acc rest = (acc, rest) := by
  cases rest with
  | nil => rfl
  | cons c t =>
      rw [numOk] at hr
      rw [parseNatAux, if_neg]
      simp only [Bool.not_eq_true'] at hr
      simp [hr]

/-- Parsing the decimal rendering of `n` followed by a non-digit remainder
yields `n` and the remainder. -/
theorem parseNatChars_natToChars (n : Nat) (rest : List Char) (hr : numOk rest = true) :
    parseNatChars (natToChars n ++ rest) = some (n, rest) := by
  obtain ⟨c, t, hct, hc⟩ := natToChars_head n
  have hlt : n < 10 ^ (n + 1) :=
    lt_of_lt_of_le (Nat.lt_pow_self (by norm_num) n)
      (Nat.pow_le_pow_right (by norm_num) (Nat.le_succ n))
  have hfold := foldl_natDigitsAux (n + 1) n hlt
  rw [show natDigitsAux (n + 1) n = natToChars n from rfl, hct, List.foldl_cons] at hfold
  have ht : ∀ x ∈ t, isDigitC x = true := by
    intro x hx
    refine natDigitsAux_digits (n + 1) n x ?_
    show x ∈ natToChars n
    rw [hct]
    exact List.mem_cons_of_mem c hx
  rw [hct, List.cons_append, parseNatChars, if_pos hc, parseNatAux_append t ht,
    parseNatAux_stop _ _ hr]
  have hz : (0 : Nat) * 10 + (c.toNat - 48) = c.toNat - 48 := by omega
  rw [hz] at hfold
  rw [hfold]

/-- Matching a literal prefix against itself succeeds with the remainder. -/
theorem matchPref_self : ∀ (p rest : List Char), matchPref p (p ++ rest) = some rest := by
  intro p
  induction p with
  | nil => intro rest; cases rest <;> rfl
  | cons c t ih =>
      intro rest
      show (if c = c then matchPref t (t ++ rest) else none) = some rest
      rw [if_pos rfl]
      exact ih rest

/-- One step of the string-content parser on a nonempty input. -/
theorem parseStrAux_cons (acc : List Char) (c : Char) (cs : List Char) :
    parseStrAux acc (c :: cs) =
      if c = quoteC then some (acc.reverse, cs)
      else if c = backslashC then
        match cs with
        | [] => none
        | e :: cs2 => parseStrAux (e :: acc) cs2
      else parseStrAux (c :: acc) cs := by
  rw [parseStrAux.eq_def]

/-- The string-content parser inverts `escapeChars` up to the closing quote. -/
theorem parseStrAux_escapeChars : ∀ (cs acc rest : List Char),
    parseStrAux acc (escapeChars cs ++ (quoteC :: rest)) =
      some (acc.reverse ++ cs, rest) := by
  intro cs
  induction cs with
  | nil =>
      intro acc rest
      rw [escapeChars, List.nil_append, List.append_nil, parseStrAux_cons, if_pos rfl]
  | cons c t ih =>
      intro acc rest
      rw [escapeChars]
      by_cases hq : c = quoteC
      · subst hq
        rw [if_pos rfl]
        simp only [List.cons_append, List.nil_append]
        rw [parseStrAux_cons, if_neg (by decide), if_pos rfl]
        show parseStrAux (quoteC :: acc) (escapeChars t ++ (quoteC :: rest)) = _
        rw [ih (quoteC :: acc) rest]
        simp
      · by_cases hb : c = backslashC
        · subst hb
          rw [if_neg hq, if_pos rfl]
          simp only [List.cons_append, List.nil_append]
          rw [parseStrAux_cons, if_neg (by decide), if_pos rfl]
          show parseStrAux (backslashC :: acc) (escapeChars t ++ (quoteC :: rest)) = _
          rw [ih (backslashC :: acc) rest]
          simp
        · rw [if_neg hq, if_neg hb]
          simp only [List.cons_append, List.nil_append]
          rw [parseStrAux_cons, if_neg hq, if_neg hb]
          rw [ih (c :: acc) rest]
          simp

/-- Every value needs at least one unit of parser fuel. -/
theorem vsize_pos : ∀ w : Value, 1 ≤ vsize w := by
  intro w
  cases w with
  | varr xs => exact Nat.le_add_right 1 _
  | vobj fs => exact Nat.le_add_right 1 _
  | vundef => exact Nat.le_refl 1
  | vnull => exact Nat.le_refl 1
  | vbool b => exact Nat.le_refl 1
  | vnum i => exact Nat.le_refl 1
  | vstr s => exact Nat.le_refl 1

/-- Dispatch: a leading minus parses a negated number. -/
theorem parseVal_minus_eq (fuel : Nat) (cs : List Char) :
    parseVal (fuel + 1) (minusC :: cs) =
      (parseNatChars cs).map (fun p => (Value.vnum (-(p.1 : Int)), p.2)) := rfl

/-- Dispatch: a leading quote parses a string literal. -/
theorem parseVal_quote_eq (fuel : Nat) (cs : List Char) :
    parseVal (fuel + 1) (quoteC :: cs) =
      (parseStrAux [] cs).map (fun p => (Value.vstr (String.mk p.1), p.2)) := rfl

/-- Dispatch: a leading digit parses a number. -/
theorem parseVal_digit_eq (fuel : Nat) (c : Char) (cs : List Char)
    (h : isDigitC c = true) :
    parseVal (fuel + 1) (c :: cs) =
      (parseNatChars (c :: cs)).map (fun p => (Value.vnum (p.1 : Int), p.2)) := by
  have hne : ∀ d : Char, isDigitC d = false → c ≠ d := by
    intro d hd he
    rw [he, hd] at h
    cases h
  rw [parseVal.eq_def]
  dsimp only
  rw [if_neg (hne 'u' (by decide)), if_neg (hne 'n' (by decide)),
    if_neg (hne 't' (by decide)), if_neg (hne 'f' (by decide)),
    if_neg (hne minusC (by decide)), if_pos h]

/-- Dispatch: a leading open bracket with a nonempty tail. -/
theorem parseVal_lbrack_cons (fuel : Nat) (c2 : Char) (r2 : List Char) :
    parseVal (fuel + 1) (lbrackC :: c2 :: r2) =
      (if c2 = rbrackC then some (Value.varr [], r2)
        else (parseElems fuel (c2 :: r2)).map (fun p => (Value.varr p.1, p.2))) := rfl

/-- Dispatch: a leading open brace with a nonempty tail. -/
theorem parseVal_lbrace_cons (fuel : Nat) (c2 : Char) (r2 : List Char) :
    parseVal (fuel + 1) (lbraceC :: c2 :: r2) =
      (if c2 = rbraceC then some (Value.vobj [], r2)
        else (parseFields fuel (c2 :: r2)).map (fun p => (Value.vobj p.1, p.2))) := rfl

/-- The first character of a rendered value is never a closing bracket,
closing brace, comma or colon. -/
theorem ssChars_head_spec : ∀ w : Value, ∃ c t, ssChars w = c :: t ∧
    c ≠ rbrackC ∧ c ≠ rbraceC := by
  intro w
  cases w with
  | vundef => exact ⟨'u', _, rfl, by decide, by decide⟩
  | vnull => exact ⟨'n', _, rfl, by decide, by decide⟩
  | vbool b =>
      cases b with
      | true => exact ⟨'t', _, rfl, by decide, by decide⟩
      | false => exact ⟨'f', _, rfl, by decide, by decide⟩
  | vnum i =>
      cases i with
      | ofNat m =>
          obtain ⟨c, t, hct, hc⟩ := natToChars_head m
          refine ⟨c, t, hct, ?_, ?_⟩
          · intro he; rw [he] at hc; cases hc
          · intro he; rw [he] at hc; cases hc
      | negSucc m => exact ⟨minusC, _, rfl, by decide, by decide⟩
  | vstr s => exact ⟨quoteC, _, rfl, by decide, by decide⟩
  | varr xs => exact ⟨lbrackC, _, rfl, by decide, by decide⟩
  | vobj fs => exact ⟨lbraceC, _, rfl, by decide, by decide⟩

/-- One step of the element parser at positive fuel. -/
theorem parseElems_succ (fuel : Nat) (cs : List Char) :
    parseElems (fuel + 1) cs =
      (match parseVal fuel cs with
        | none => none
        | some (v, r) =>
            match r with
            | c :: r2 =>
                if c = commaC then (parseElems fuel r2).map (fun p => (v :: p.1, p.2))
                else if c = rbrackC then some ([v], r2)
                else none
            | [] => none) := by
  rw [parseElems.eq_def]

/-- One step of the field parser at positive fuel, on a nonempty input. -/
theorem parseFields_cons (fuel : Nat) (c : Char) (cs : List Char) :
    parseFields (fuel + 1) (c :: cs) =
      (if c = quoteC then
        match parseStrAux [] cs with
        | none => none
        | some (kchars, r1) =>
            match r1 with
            | c2 :: r2 =>
                if c2 = colonC then
                  match parseVal fuel r2 with
                  | none => none
                  | some (v, r3) =>
                      match r3 with
                      | c3 :: r4 =>
                          if c3 = commaC then
                            (parseFields fuel r4).map
                              (fun p => ((String.mk kchars, v) :: p.1, p.2))
                          else if c3 = rbraceC then some ([(String.mk kchars, v)], r4)
                          else none
                      | [] => none
                else none
            | [] => none
      else none) := by
  rw [parseFields.eq_def]

/-- The parser inverts the serializer exactly: a rendered value followed by
any remainder that cannot extend a number parses back to the value and the
remainder, under any sufficient fuel; similarly for nonempty element and
field lists up to their closing delimiter. Proved by strong induction on
the size bound `n`. -/
theorem parse_roundtrip_aux : ∀ n : Nat,
    (∀ (w : Value) (rest : List Char) (fuel : Nat), vsize w ≤ n → vsize w ≤ fuel →
      numOk rest = true → parseVal fuel (ssChars w ++ rest) = some (w, rest)) ∧
    (∀ (xs : List Value) (rest : List Char) (fuel : Nat), xs ≠ [] →
      vsizeList xs ≤ n → vsizeList xs ≤ fuel →
      parseElems fuel (ssElems xs ++ (rbrackC :: rest)) = some (xs, rest)) ∧
    (∀ (fs : List (String × Value)) (rest : List Char) (fuel : Nat), fs ≠ [] →
      vsizeFields fs ≤ n → vsizeFields fs ≤ fuel →
      parseFields fuel (ssFields fs ++ (rbraceC :: rest)) = some (fs, rest)) := by
  intro n
  induction n using Nat.strong_induction_on with
  | _ n IH =>
  refine ⟨?_, ?_, ?_⟩
  · intro w rest fuel hn hf hrest
    obtain ⟨f, rfl⟩ : ∃ f, fuel = f + 1 := by
      cases fuel with
      | zero => exact absurd (Nat.le_trans (vsize_pos w) hf) (by omega)
      | succ f => exact ⟨f, rfl⟩
    cases w with
    | vundef =>
        show (matchPref ['n', 'd', 'e', 'f', 'i', 'n', 'e', 'd']
          (['n', 'd', 'e', 'f', 'i', 'n', 'e', 'd'] ++ rest)).map
            (fun r => (Value.vundef, r)) = some (Value.vundef, rest)
        rw [matchPref_self]
        rfl
    | vnull =>
        show (matchPref ['u', 'l', 'l'] (['u', 'l', 'l'] ++ rest)).map
          (fun r => (Value.vnull, r)) = some (Value.vnull, rest)
        rw [matchPref_self]
        rfl
    | vbool b =>
        cases b with
        | true =>
            show (matchPref ['r', 'u', 'e'] (['r', 'u', 'e'] ++ rest)).map
              (fun r => (Value.vbool true, r)) = some (Value.vbool true, rest)
            rw [matchPref_self]
            rfl
        | false =>
            show (matchPref ['a', 'l', 's', 'e'] (['a', 'l', 's', 'e'] ++ rest)).map
              (fun r => (Value.vbool false, r)) = some (Value.vbool false, rest)
            rw [matchPref_self]
            rfl
    | vnum i =>
        cases i with
        | ofNat m =>
            obtain ⟨c, t, hct, hc⟩ := natToChars_head m
            have hp := parseNatChars_natToChars m rest hrest
            have hshape : ssChars (Value.vnum (Int.ofNat m)) ++ rest = c :: (t ++ rest) := by
              show natToChars m ++ rest = c :: (t ++ rest)
              rw [hct, List.cons_append]
            rw [hshape, parseVal_digit_eq f c (t ++ rest) hc, ← List.cons_append, ← hct, hp]
            rfl
        | negSucc m =>
            have hp := parseNatChars_natToChars (m + 1) rest hrest
            have hshape : ssChars (Value.vnum (Int.negSucc m)) ++ rest =
                minusC :: (natToChars (m + 1) ++ rest) := by
              show (minusC :: natToChars (m + 1)) ++ rest = _
              rw [List.cons_append]
            rw [hshape, parseVal_minus_eq, hp]
            show some (Value.vnum (-((m : Int) + 1)), rest) = some (Value.vnum (Int.negSucc m), rest)
            rw [show (-((m : Int) + 1)) = Int.negSucc m from by rw [Int.negSucc_eq]]
    | vstr s =>
        have hshape : ssChars (Value.vstr s) ++ rest =
            quoteC :: (escapeChars s.toList ++ (quoteC :: rest)) := by
          show (quoteC :: (escapeChars s.toList ++ [quoteC])) ++ rest = _
          simp
        rw [hshape, parseVal_quote_eq, parseStrAux_escapeChars]
        rfl
    | varr xs =>
        cases xs with
        | nil =>
            rw [show ssChars (Value.varr []) ++ rest = lbrackC :: (rbrackC :: rest) from rfl,
              parseVal_lbrack_cons, if_pos rfl]
        | cons x xs2 =>
            obtain ⟨c2, t2, hh, hnb, _⟩ := ssChars_head_spec x
            have hel : ∃ u, ssElems (x :: xs2) ++ (rbrackC :: rest) = c2 :: u := by
              cases xs2 with
              | nil =>
                  refine ⟨t2 ++ (rbrackC :: rest), ?_⟩
                  rw [show ssElems [x] = ssChars x from rfl, hh, List.cons_append]
              | cons y ys =>
                  refine ⟨(t2 ++ (commaC :: ssElems (y :: ys))) ++ (rbrackC :: rest), ?_⟩
                  rw [show ssElems (x :: y :: ys) =
                    ssChars x ++ (commaC :: ssElems (y :: ys)) from rfl,
                    hh, List.cons_append, List.cons_append]
            obtain ⟨u, hu⟩ := hel
            have hshape : ssChars (Value.varr (x :: xs2)) ++ rest =
                lbrackC :: (ssElems (x :: xs2) ++ (rbrackC :: rest)) := by
              show (lbrackC :: (ssElems (x :: xs2) ++ [rbrackC])) ++ rest = _
              simp
            have hsz : vsize (Value.varr (x :: xs2)) = 1 + vsizeList (x :: xs2) := rfl
            have h2 := (IH (vsizeList (x :: xs2)) (by omega)).2.1 (x :: xs2) rest f
              (List.cons_ne_nil x xs2) (Nat.le_refl _) (by omega)
            rw [hshape, hu, parseVal_lbrack_cons, if_neg hnb, ← hu, h2]
            rfl
    | vobj fs =>
        cases fs with
        | nil =>
            rw [show ssChars (Value.vobj []) ++ rest = lbraceC :: (rbraceC :: rest) from rfl,
              parseVal_lbrace_cons, if_pos rfl]
        | cons p fs2 =>
            obtain ⟨k, v⟩ := p
            have hel : ∃ u, ssFields ((k, v) :: fs2) ++ (rbraceC :: rest) = quoteC :: u := by
              cases fs2 with
              | nil =>
                  refine ⟨(escapeChars k.toList ++ [quoteC]) ++
                    ((colonC :: ssChars v) ++ (rbraceC :: rest)), ?_⟩
                  rw [show ssFields [(k, v)] = strChars k ++ (colonC :: ssChars v) from rfl,
                    strChars]
                  simp
              | cons p2 fs3 =>
                  obtain ⟨k2, v2⟩ := p2
                  refine ⟨(escapeChars k.toList ++ [quoteC]) ++
                    ((colonC :: (ssChars v ++ (commaC :: ssFields ((k2, v2) :: fs3)))) ++
                      (rbraceC :: rest)), ?_⟩
                  rw [show ssFields ((k, v) :: (k2, v2) :: fs3) =
                    strChars k ++ (colonC :: (ssChars v ++
                      (commaC :: ssFields ((k2, v2) :: fs3)))) from rfl,
                    strChars]
                  simp
            obtain ⟨u, hu⟩ := hel
            have hshape : ssChars (Value.vobj ((k, v) :: fs2)) ++ rest =
                lbraceC :: (ssFields ((k, v) :: fs2) ++ (rbraceC :: rest)) := by
              show (lbraceC :: (ssFields ((k, v) :: fs2) ++ [rbraceC])) ++ rest = _
              simp
            have hsz : vsize (Value.vobj ((k, v) :: fs2)) = 1 + vsizeFields ((k, v) :: fs2) := rfl
            have h2 := (IH (vsizeFields ((k, v) :: fs2)) (by omega)).2.2 ((k, v) :: fs2) rest f
              (List.cons_ne_nil (k, v) fs2) (Nat.le_refl _) (by omega)
            rw [hshape, hu, parseVal_lbrace_cons, if_neg (by decide), ← hu, h2]
            rfl
  · intro xs rest fuel hne hn hf
    cases xs with
    | nil => exact absurd rfl hne
    | cons x xs2 =>
        have hsz : vsizeList (x :: xs2) = 1 + vsize x + vsizeList xs2 := rfl
        have hx1 := vsize_pos x
        obtain ⟨f, rfl⟩ : ∃ f, fuel = f + 1 := by
          cases fuel with
          | zero => exact absurd hf (by omega)
          | succ f => exact ⟨f, rfl⟩
        cases xs2 with
        | nil =>
            have h1 := (IH (vsize x) (by omega)).1 x (rbrackC :: rest) f
              (Nat.le_refl _) (by omega) rfl
            rw [show ssElems [x] = ssChars x from rfl, parseElems_succ, h1]
            dsimp only
            rw [if_neg (by decide), if_pos rfl]
        | cons y ys =>
            have hsz2 : vsizeList (y :: ys) = 1 + vsize y + vsizeList ys := rfl
            have hsh : ssElems (x :: y :: ys) ++ (rbrackC :: rest) =
                ssChars x ++ (commaC :: (ssElems (y :: ys) ++ (rbrackC :: rest))) := by
              rw [show ssElems (x :: y :: ys) =
                ssChars x ++ (commaC :: ssElems (y :: ys)) from rfl]
              simp
            have h1 := (IH (vsize x) (by omega)).1 x
              (commaC :: (ssElems (y :: ys) ++ (rbrackC :: rest))) f
              (Nat.le_refl _) (by omega) rfl
            have h2 := (IH (vsizeList (y :: ys)) (by omega)).2.1 (y :: ys) rest f
              (List.cons_ne_nil y ys) (Nat.le_refl _) (by omega)
            rw [hsh, parseElems_succ, h1]
            dsimp only
            rw [if_pos rfl, h2]
            rfl
  · intro fs rest fuel hne hn hf
    cases fs with
    | nil => exact absurd rfl hne
    | cons p fs2 =>
        obtain ⟨k, v⟩ := p
        have hsz : vsizeFields ((k, v) :: fs2) = 1 + vsize v + vsizeFields fs2 := rfl
        have hv1 := vsize_pos v
        obtain ⟨f, rfl⟩ : ∃ f, fuel = f + 1 := by
          cases fuel with
          | zero => exact absurd hf (by omega)
          | succ f => exact ⟨f, rfl⟩
        cases fs2 with
        | nil =>
            have hsh : ssFields [(k, v)] ++ (rbraceC :: rest) =
                quoteC :: (escapeChars k.toList ++
                  (quoteC :: (colonC :: (ssChars v ++ (rbraceC :: rest))))) := by
              rw [show ssFields [(k, v)] = strChars k ++ (colonC :: ssChars v) from rfl,
                strChars]
              simp
            have h1 := (IH (vsize v) (by omega)).1 v (rbraceC :: rest) f
              (Nat.le_refl _) (by omega) rfl
            rw [hsh, parseFields_cons, if_pos rfl, parseStrAux_escapeChars]
            dsimp only
            rw [if_pos rfl, h1]
            dsimp only
            rw [if_neg (by decide), if_pos rfl]
            rfl
        | cons p2 fs3 =>
            obtain ⟨k2, v2⟩ := p2
            have hsz2 : vsizeFields ((k2, v2) :: fs3) = 1 + vsize v2 + vsizeFields fs3 := rfl
            have hsh : ssFields ((k, v) :: (k2, v2) :: fs3) ++ (rbraceC :: rest) =
                quoteC :: (escapeChars k.toList ++ (quoteC :: (colonC ::
                  (ssChars v ++ (commaC ::
                    (ssFields ((k2, v2) :: fs3) ++ (rbraceC :: rest))))))) := by
              rw [show ssFields ((k, v) :: (k2, v2) :: fs3) =
                strChars k ++ (colonC :: (ssChars v ++
                  (commaC :: ssFields ((k2, v2) :: fs3)))) from rfl, strChars]
              simp
            have h1 := (IH (vsize v) (by omega)).1 v
              (commaC :: (ssFields ((k2, v2) :: fs3) ++ (rbraceC :: rest))) f
              (Nat.le_refl _) (by omega) rfl
            have h2 := (IH (vsizeFields ((k2, v2) :: fs3)) (by omega)).2.2
              ((k2, v2) :: fs3) rest f (List.cons_ne_nil (k2, v2) fs3)
              (Nat.le_refl _) (by omega)
            rw [hsh, parseFields_cons, if_pos rfl, parseStrAux_escapeChars]
            dsimp only
            rw [if_pos rfl, h1]
            dsimp only
            rw [if_pos rfl, h2]
            rfl

/-- The in-order serializer is injective. -/
theorem ssChars_injective {a b : Value} (h : ssChars a = ssChars b) : a = b := by
  have ha := (parse_roundtrip_aux (max (vsize a) (vsize b))).1 a []
    (max (vsize a) (vsize b)) (Nat.le_max_left _ _) (Nat.le_max_left _ _) rfl
  have hb := (parse_roundtrip_aux (max (vsize a) (vsize b))).1 b []
    (max (vsize a) (vsize b)) (Nat.le_max_right _ _) (Nat.le_max_right _ _) rfl
  rw [List.append_nil] at ha hb
  rw [h, hb] at ha
  exact (congrArg Prod.fst (Option.some.inj ha)).symm

/-- Two values have equal `stableStringify` outputs exactly when they are
structurally equal under order-independent comparison of object keys. -/
theorem stableStringify_eq_iff (a b : Value) :
    stableStringify a = stableStringify b ↔ structEq a b := by
  constructor
  · intro h
    exact ssChars_injective (congrArg String.data h)
  · intro h
    show String.mk (ssChars (canon a)) = String.mk (ssChars (canon b))
    rw [show canon a = canon b from h]

/-- C8: the property filter of generate_scene_patch drops a generated
`set_property` operation if and only if the snapshot of current values
(`getProps`, queried at the pre-rename path obtained through the reverse
alias map) holds the target property with a value structurally equal to the
desired value under order-independent comparison (`structEq`, canonicalized
key ordering for maps); otherwise — in particular whenever the node or the
property is absent from the snapshot — the operation is kept unchanged. The
code compares `stableStringify` outputs; by `stableStringify_eq_iff` that
comparison coincides with structural equality. -/
theorem set_property_filter_drop_iff :
    ∀ (getProps : String → Option (List (String × Value)))
      (reverseAliases : List (String × String)) (node_path property : String)
      (value : Value) (rest : List ScenePatchOperation),
      (filterSetProperties getProps reverseAliases
          (.set_property node_path property value :: rest) =
          filterSetProperties getProps reverseAliases rest ↔
        ∃ props current,
          getProps ((mapGet node_path reverseAliases).getD node_path) = some props ∧
          mapGet property props = some current ∧ structEq current value) ∧
      (filterSetProperties getProps reverseAliases
          (.set_property node_path property value :: rest) =
          .set_property node_path property value ::
            filterSetProperties getProps reverseAliases rest ↔
        ¬ ∃ props current,
          getProps ((mapGet node_path reverseAliases).getD node_path) = some props ∧
          mapGet property props = some current ∧ structEq current value) := by
  intro gp ra np prop v rest
  have hunf : filterSetProperties gp ra (ScenePatchOperation.set_property np prop v :: rest) =
      (match gp ((mapGet np ra).getD np) with
        | none => [ScenePatchOperation.set_property np prop v]
        | some props =>
            match mapGet prop props with
            | none => [ScenePatchOperation.set_property np prop v]
            | some current =>
                if stableStringify current = stableStringify v then []
                else [ScenePatchOperation.set_property np prop v]) ++
        filterSetProperties gp ra rest := rfl
  by_cases hcase : ∃ props current,
      gp ((mapGet np ra).getD np) = some props ∧
      mapGet prop props = some current ∧ structEq current v
  · obtain ⟨props, current, hp, hc, hs⟩ := hcase
    have hss : stableStringify current = stableStringify v :=
      (stableStringify_eq_iff current v).mpr hs
    have hhead : filterSetProperties gp ra
        (ScenePatchOperation.set_property np prop v :: rest) =
        filterSetProperties gp ra rest := by
      rw [hunf, hp]
      dsimp only
      rw [hc]
      dsimp only
      rw [if_pos hss]
      rfl
    refine ⟨⟨fun _ => ⟨props, current, hp, hc, hs⟩, fun _ => hhead⟩, ?_, ?_⟩
    · intro heq
      rw [hhead] at heq
      exact absurd heq.symm (List.cons_ne_self _ _)
    · intro hn
      exact absurd ⟨props, current, hp, hc, hs⟩ hn
  · have hhead : filterSetProperties gp ra
        (ScenePatchOperation.set_property np prop v :: rest) =
        ScenePatchOperation.set_property np prop v ::
          filterSetProperties gp ra rest := by
      rw [hunf]
      cases hp : gp ((mapGet np ra).getD np) with
      | none => rfl
      | some props =>
          dsimp only
          cases hc : mapGet prop props with
          | none => rfl
          | some current =>
              dsimp only
              rw [if_neg]
              · rfl
              · intro hss
                exact hcase ⟨props, current, hp, hc,
                  (stableStringify_eq_iff current v).mp hss⟩
    refine ⟨⟨?_, fun hex => absurd hex hcase⟩, fun _ => hcase, fun _ => hhead⟩
    intro heq
    rw [hhead] at heq
    exact absurd heq (List.cons_ne_self _ _)

end GodotMCP
